import Mathlib

/-!
# Verification of the RiskDice icosahedron geometry and animation controller

A shallow embedding, over the real numbers, of the 3D dice core in
`src/components/RiskDice.tsx` (the revision whose converging branch keeps a
verification retry counter):

* the three.js vector / quaternion operations the component uses
  (`normalize`, `applyQuaternion`, `setFromUnitVectors`, `slerp`, `angleTo`,
  `multiplyQuaternions`, `setFromAxisAngle`),
* `createStandardIcosahedron`, `detectFacingFace`, `calculateTargetQuaternion`,
* the per-frame update (`useFrame`) in both its spinning and converging
  branches, with the snap / verification / retry logic made an explicit state
  transformer,
* the presentation adapter (`faceTexts` / `faceColors` / `faceHighlights`).

Because the golden-ratio geometry lives in the quadratic field ℚ(√5), every
concrete geometric fact (norms of the face cross products, the outward-sign
corrections, pairwise comparisons of normals) is decided on a computable
shadow of the construction with coordinates in ℤ[√5], and transported to the
real embedding through the evaluation map `Z5.toReal`.
-/

namespace RiskDice

/-! ## Exact arithmetic in ℤ[√5]: a computable shadow for the geometry -/

/-- An element `a + b·√5` of ℤ[√5]. -/
structure Z5 where
  a : ℤ
  b : ℤ
deriving DecidableEq, Repr

namespace Z5

def zero : Z5 := ⟨0, 0⟩

def add (x y : Z5) : Z5 := ⟨x.a + y.a, x.b + y.b⟩

def sub (x y : Z5) : Z5 := ⟨x.a - y.a, x.b - y.b⟩

def neg (x : Z5) : Z5 := ⟨-x.a, -x.b⟩

def mul (x y : Z5) : Z5 := ⟨x.a * y.a + 5 * (x.b * y.b), x.a * y.b + x.b * y.a⟩

/-- Evaluation into ℝ, sending the formal `√5` to the real one. -/
noncomputable def toReal (x : Z5) : ℝ := (x.a : ℝ) + (x.b : ℝ) * Real.sqrt 5

lemma sqrt5_sq : Real.sqrt 5 * Real.sqrt 5 = 5 :=
  Real.mul_self_sqrt (by norm_num)

lemma sqrt5_pos : 0 < Real.sqrt 5 := Real.sqrt_pos.mpr (by norm_num)

@[simp] lemma toReal_zero : toReal zero = 0 := by simp [toReal, zero]

lemma toReal_add (x y : Z5) : toReal (add x y) = toReal x + toReal y := by
  simp only [toReal, add]; push_cast; ring

lemma toReal_sub (x y : Z5) : toReal (sub x y) = toReal x - toReal y := by
  simp only [toReal, sub]; push_cast; ring

lemma toReal_neg (x : Z5) : toReal (neg x) = -(toReal x) := by
  simp only [toReal, neg]; push_cast; ring

lemma toReal_mul (x y : Z5) : toReal (mul x y) = toReal x * toReal y := by
  have h5 := sqrt5_sq
  simp only [toReal, mul]
  push_cast
  linear_combination (-((x.b : ℝ) * (y.b : ℝ))) * h5

lemma toReal_int (n m : ℤ) : toReal ⟨n, m⟩ = (n : ℝ) + (m : ℝ) * Real.sqrt 5 := rfl

/-- Decision procedure for `0 < a + b·√5` over the integers. -/
def posDec (x : Z5) : Bool :=
  if x.b = 0 then decide (0 < x.a)
  else if 0 < x.b then decide (0 ≤ x.a) || decide (x.a ^ 2 < 5 * x.b ^ 2)
  else decide (0 < x.a) && decide (5 * x.b ^ 2 < x.a ^ 2)

lemma posDec_iff (x : Z5) : posDec x = true ↔ 0 < toReal x := by
  obtain ⟨a, b⟩ := x
  simp only [posDec, toReal]
  have h5 := sqrt5_sq
  have hpos := sqrt5_pos
  by_cases hb : b = 0
  · subst hb
    simp only [if_pos rfl]
    constructor
    · intro h
      have : (0 : ℤ) < a := by simpa using h
      have : (0 : ℝ) < (a : ℝ) := by exact_mod_cast this
      simpa using this
    · intro h
      simp only [Int.cast_zero, zero_mul, add_zero] at h
      have : (0 : ℤ) < a := by exact_mod_cast h
      simpa using this
  · by_cases hbpos : 0 < b
    · have hbR : (0 : ℝ) < (b : ℝ) := by exact_mod_cast hbpos
      simp only [if_neg hb, if_pos hbpos]
      constructor
      · intro h
        rcases Bool.or_eq_true_iff.mp h with h1 | h1
        · have ha : (0 : ℤ) ≤ a := of_decide_eq_true h1
          have haR : (0 : ℝ) ≤ (a : ℝ) := by exact_mod_cast ha
          nlinarith
        · have ha : a ^ 2 < 5 * b ^ 2 := of_decide_eq_true h1
          have haR : (a : ℝ) ^ 2 < 5 * (b : ℝ) ^ 2 := by exact_mod_cast ha
          have hb5 : (0 : ℝ) < (b : ℝ) * Real.sqrt 5 := mul_pos hbR hpos
          by_contra hc
          push_neg at hc
          have e1 : (0 : ℝ) ≤ -(a : ℝ) - (b : ℝ) * Real.sqrt 5 := by linarith
          have e2 : (0 : ℝ) ≤ (-(a : ℝ) - (b : ℝ) * Real.sqrt 5) *
              (-(a : ℝ) + (b : ℝ) * Real.sqrt 5) := mul_nonneg e1 (by linarith)
          nlinarith [e2, h5]
      · intro h
        rcases le_or_lt 0 a with ha | ha
        · exact Bool.or_eq_true_iff.mpr (.inl (decide_eq_true (by exact_mod_cast ha)))
        · refine Bool.or_eq_true_iff.mpr (.inr (decide_eq_true ?_))
          have haR : (a : ℝ) < 0 := by exact_mod_cast ha
          have hlt : -(a : ℝ) < (b : ℝ) * Real.sqrt 5 := by linarith
          have : (a : ℝ) ^ 2 < 5 * (b : ℝ) ^ 2 := by nlinarith
          exact_mod_cast this
    · have hbneg : b < 0 := lt_of_le_of_ne (not_lt.mp hbpos) hb
      have hbR : (b : ℝ) < 0 := by exact_mod_cast hbneg
      simp only [if_neg hb, if_neg hbpos]
      constructor
      · intro h
        rcases Bool.and_eq_true_iff.mp h with ⟨h1, h2⟩
        have ha : (0 : ℤ) < a := of_decide_eq_true h1
        have hsq : 5 * b ^ 2 < a ^ 2 := of_decide_eq_true h2
        have haR : (0 : ℝ) < (a : ℝ) := by exact_mod_cast ha
        have hsqR : 5 * (b : ℝ) ^ 2 < (a : ℝ) ^ 2 := by exact_mod_cast hsq
        nlinarith
      · intro h
        have haR : (0 : ℝ) < (a : ℝ) := by nlinarith
        have ha : (0 : ℤ) < a := by exact_mod_cast haR
        have hlt : -((b : ℝ) * Real.sqrt 5) < (a : ℝ) := by linarith
        have e1 : (0 : ℝ) ≤ -((b : ℝ) * Real.sqrt 5) := by
          nlinarith [mul_pos (show (0 : ℝ) < -(b : ℝ) by linarith) hpos]
        have e2 := mul_self_lt_mul_self e1 hlt
        have hsqR : 5 * (b : ℝ) ^ 2 < (a : ℝ) ^ 2 := by nlinarith [e2, h5]
        have hsq : 5 * b ^ 2 < a ^ 2 := by exact_mod_cast hsqR
        exact Bool.and_eq_true_iff.mpr ⟨decide_eq_true ha, decide_eq_true hsq⟩

/-- Computable strict comparison: `blt x y = true` iff `x < y` in ℝ. -/
def blt (x y : Z5) : Bool := posDec (sub y x)

lemma blt_iff (x y : Z5) : blt x y = true ↔ toReal x < toReal y := by
  rw [blt, posDec_iff, toReal_sub]
  constructor <;> intro h <;> linarith

/-- Computable non-strict comparison. -/
def ble (x y : Z5) : Bool := !(blt y x)

lemma ble_iff (x y : Z5) : ble x y = true ↔ toReal x ≤ toReal y := by
  rw [ble, Bool.not_eq_true', ← Bool.not_eq_true, blt_iff]
  constructor
  · intro h; exact not_lt.mp h
  · intro h; exact not_lt.mpr h

end Z5

/-- A vector with coordinates in ℤ[√5]: the computable shadow of a
three.js `Vector3` appearing in the icosahedron construction. -/
structure V3Z where
  x : Z5
  y : Z5
  z : Z5
deriving DecidableEq, Repr

namespace V3Z

def add (u v : V3Z) : V3Z := ⟨u.x.add v.x, u.y.add v.y, u.z.add v.z⟩

def sub (u v : V3Z) : V3Z := ⟨u.x.sub v.x, u.y.sub v.y, u.z.sub v.z⟩

def neg (u : V3Z) : V3Z := ⟨u.x.neg, u.y.neg, u.z.neg⟩

def dot (u v : V3Z) : Z5 := (u.x.mul v.x).add ((u.y.mul v.y).add (u.z.mul v.z))

def cross (u v : V3Z) : V3Z :=
  ⟨(u.y.mul v.z).sub (u.z.mul v.y),
   (u.z.mul v.x).sub (u.x.mul v.z),
   (u.x.mul v.y).sub (u.y.mul v.x)⟩

end V3Z

/-! ## The real-number embedding of the three.js vector and quaternion API -/

/-- `THREE.Vector3`, embedded over ℝ. -/
@[ext] structure Vec3 where
  x : ℝ
  y : ℝ
  z : ℝ

namespace Vec3

instance : Zero Vec3 := ⟨⟨0, 0, 0⟩⟩

instance : Add Vec3 := ⟨fun u v => ⟨u.x + v.x, u.y + v.y, u.z + v.z⟩⟩

instance : Sub Vec3 := ⟨fun u v => ⟨u.x - v.x, u.y - v.y, u.z - v.z⟩⟩

instance : Neg Vec3 := ⟨fun v => ⟨-v.x, -v.y, -v.z⟩⟩

instance : SMul ℝ Vec3 := ⟨fun t v => ⟨t * v.x, t * v.y, t * v.z⟩⟩

@[simp] lemma zero_x : (0 : Vec3).x = 0 := rfl
@[simp] lemma zero_y : (0 : Vec3).y = 0 := rfl
@[simp] lemma zero_z : (0 : Vec3).z = 0 := rfl
@[simp] lemma add_x (u v : Vec3) : (u + v).x = u.x + v.x := rfl
@[simp] lemma add_y (u v : Vec3) : (u + v).y = u.y + v.y := rfl
@[simp] lemma add_z (u v : Vec3) : (u + v).z = u.z + v.z := rfl
@[simp] lemma sub_x (u v : Vec3) : (u - v).x = u.x - v.x := rfl
@[simp] lemma sub_y (u v : Vec3) : (u - v).y = u.y - v.y := rfl
@[simp] lemma sub_z (u v : Vec3) : (u - v).z = u.z - v.z := rfl
@[simp] lemma neg_x (v : Vec3) : (-v).x = -v.x := rfl
@[simp] lemma neg_y (v : Vec3) : (-v).y = -v.y := rfl
@[simp] lemma neg_z (v : Vec3) : (-v).z = -v.z := rfl
@[simp] lemma smul_x (t : ℝ) (v : Vec3) : (t • v).x = t * v.x := rfl
@[simp] lemma smul_y (t : ℝ) (v : Vec3) : (t • v).y = t * v.y := rfl
@[simp] lemma smul_z (t : ℝ) (v : Vec3) : (t • v).z = t * v.z := rfl

/-- `Vector3.dot`. -/
def dot (u v : Vec3) : ℝ := u.x * v.x + u.y * v.y + u.z * v.z

/-- `Vector3.cross` / `crossVectors`. -/
def cross (u v : Vec3) : Vec3 :=
  ⟨u.y * v.z - u.z * v.y, u.z * v.x - u.x * v.z, u.x * v.y - u.y * v.x⟩

/-- `Vector3.length`. -/
noncomputable def length (v : Vec3) : ℝ := Real.sqrt (dot v v)

/-- `Vector3.normalize`: `divideScalar(this.length() || 1)` — a zero-length
vector is divided by `1`, i.e. left unchanged. -/
noncomputable def normalize (v : Vec3) : Vec3 :=
  (1 / (if length v = 0 then 1 else length v)) • v

/-- `Vector3.distanceTo`. -/
noncomputable def distanceTo (u v : Vec3) : ℝ := length (u - v)

/-- `Vector3.lerp(v, alpha)`. -/
def lerp (u v : Vec3) (alpha : ℝ) : Vec3 := u + alpha • (v - u)

end Vec3

/-- Evaluation of a shadow vector into the real embedding. -/
noncomputable def toVec3 (u : V3Z) : Vec3 := ⟨u.x.toReal, u.y.toReal, u.z.toReal⟩

/-- `THREE.Quaternion`, embedded over ℝ. -/
@[ext] structure Quat where
  x : ℝ
  y : ℝ
  z : ℝ
  w : ℝ

namespace Quat

/-- The identity quaternion `new THREE.Quaternion()`. -/
def one : Quat := ⟨0, 0, 0, 1⟩

/-- `Quaternion.dot`. -/
def dotQ (p q : Quat) : ℝ := p.x * q.x + p.y * q.y + p.z * q.z + p.w * q.w

/-- `Quaternion.lengthSq`. -/
def normSq (q : Quat) : Quat → ℝ := dotQ q

/-- `Quaternion.length`. -/
noncomputable def lengthQ (q : Quat) : ℝ := Real.sqrt (dotQ q q)

/-- `Quaternion.normalize`: a zero-length quaternion becomes the identity,
otherwise each component is divided by the length. -/
noncomputable def normalizeQ (q : Quat) : Quat :=
  if lengthQ q = 0 then one
  else ⟨q.x / lengthQ q, q.y / lengthQ q, q.z / lengthQ q, q.w / lengthQ q⟩

/-- `Quaternion.invert` (the conjugate; three.js assumes unit length). -/
def invert (q : Quat) : Quat := ⟨-q.x, -q.y, -q.z, q.w⟩

/-- `Quaternion.multiplyQuaternions(a, b)`. -/
def mul (a b : Quat) : Quat :=
  ⟨a.x * b.w + a.w * b.x + a.y * b.z - a.z * b.y,
   a.y * b.w + a.w * b.y + a.z * b.x - a.x * b.z,
   a.z * b.w + a.w * b.z + a.x * b.y - a.y * b.x,
   a.w * b.w - a.x * b.x - a.y * b.y - a.z * b.z⟩

/-- `Quaternion.setFromAxisAngle(axis, angle)` (axis assumed normalized). -/
noncomputable def setFromAxisAngle (axis : Vec3) (angle : ℝ) : Quat :=
  ⟨axis.x * Real.sin (angle / 2), axis.y * Real.sin (angle / 2),
   axis.z * Real.sin (angle / 2), Real.cos (angle / 2)⟩

end Quat

/-- `MathUtils.clamp(value, min, max)`. -/
noncomputable def clamp (v lo hi : ℝ) : ℝ := max lo (min hi v)

/-- `Number.EPSILON` (treated as the exact rational `2⁻⁵²`). -/
noncomputable def jsEpsilon : ℝ := 1 / 2 ^ 52

/-- `Quaternion.angleTo(q)`: twice the arccosine of the absolute clamped dot. -/
noncomputable def angleTo (p q : Quat) : ℝ :=
  2 * Real.arccos |clamp (Quat.dotQ p q) (-1) 1|

/-- `Quaternion.setFromUnitVectors(vFrom, vTo)` including its
near-antiparallel fallback, followed by the in-place `normalize()`. -/
noncomputable def setFromUnitVectors (vFrom vTo : Vec3) : Quat :=
  let r := Vec3.dot vFrom vTo + 1
  Quat.normalizeQ <|
    if r < jsEpsilon then
      if |vFrom.x| > |vFrom.z| then ⟨-vFrom.y, vFrom.x, 0, 0⟩
      else ⟨0, -vFrom.z, vFrom.y, 0⟩
    else
      ⟨vFrom.y * vTo.z - vFrom.z * vTo.y,
       vFrom.z * vTo.x - vFrom.x * vTo.z,
       vFrom.x * vTo.y - vFrom.y * vTo.x, r⟩

/-- `Vector3.applyQuaternion(q)` (the quaternion is assumed unit length):
`t = 2 * cross(q.xyz, v); v + q.w * t + cross(q.xyz, t)`. -/
def applyQuaternion (q : Quat) (v : Vec3) : Vec3 :=
  let u : Vec3 := ⟨q.x, q.y, q.z⟩
  let t : Vec3 := (2 : ℝ) • Vec3.cross u v
  v + q.w • t + Vec3.cross u t

/-- JavaScript `Math.atan2(y, x)`. -/
noncomputable def jsAtan2 (y x : ℝ) : ℝ :=
  if 0 < x then Real.arctan (y / x)
  else if x < 0 then
    (if 0 ≤ y then Real.arctan (y / x) + Real.pi else Real.arctan (y / x) - Real.pi)
  else
    (if 0 < y then Real.pi / 2 else if y < 0 then -(Real.pi / 2) else 0)

/-- `Quaternion.slerp(qb, t)` (three.js implementation, all branches). -/
noncomputable def slerp (qa qb : Quat) (t : ℝ) : Quat :=
  if t = 0 then qa
  else if t = 1 then qb
  else
    let d := Quat.dotQ qa qb
    let qs : Quat := if d < 0 then ⟨-qb.x, -qb.y, -qb.z, -qb.w⟩ else qb
    let cosHalfTheta := if d < 0 then -d else d
    if 1 ≤ cosHalfTheta then qa
    else
      let sqrSinHalfTheta := 1 - cosHalfTheta * cosHalfTheta
      if sqrSinHalfTheta ≤ jsEpsilon then
        Quat.normalizeQ ⟨(1 - t) * qa.x + t * qs.x, (1 - t) * qa.y + t * qs.y,
          (1 - t) * qa.z + t * qs.z, (1 - t) * qa.w + t * qs.w⟩
      else
        let sinHalfTheta := Real.sqrt sqrSinHalfTheta
        let halfTheta := jsAtan2 sinHalfTheta cosHalfTheta
        let ratioA := Real.sin ((1 - t) * halfTheta) / sinHalfTheta
        let ratioB := Real.sin (t * halfTheta) / sinHalfTheta
        ⟨qa.x * ratioA + qs.x * ratioB, qa.y * ratioA + qs.y * ratioB,
         qa.z * ratioA + qs.z * ratioB, qa.w * ratioA + qs.w * ratioB⟩

/-! ## `createStandardIcosahedron` (RiskDice.tsx lines 116–189) -/

/-- The golden ratio, line 118: `(1.0 + Math.sqrt(5.0)) / 2.0`. -/
noncomputable def phi : ℝ := (1 + Real.sqrt 5) / 2

/-- Line 117: `const radius = 2`. -/
def radius : ℝ := 2

/-- The 12 vertex coordinate triples of lines 122–133, before the
`.normalize().multiplyScalar(radius)` applied to each. -/
noncomputable def rawVertex : Fin 12 → Vec3
  | 0 => ⟨-1, phi, 0⟩
  | 1 => ⟨1, phi, 0⟩
  | 2 => ⟨-1, -phi, 0⟩
  | 3 => ⟨1, -phi, 0⟩
  | 4 => ⟨0, -1, phi⟩
  | 5 => ⟨0, 1, phi⟩
  | 6 => ⟨0, -1, -phi⟩
  | 7 => ⟨0, 1, -phi⟩
  | 8 => ⟨phi, 0, -1⟩
  | 9 => ⟨phi, 0, 1⟩
  | 10 => ⟨-phi, 0, -1⟩
  | 11 => ⟨-phi, 0, 1⟩

/-- A vertex as stored in the `vertices` array: normalized then scaled to the
circumradius. -/
noncomputable def vertexTable (k : Fin 12) : Vec3 :=
  radius • Vec3.normalize (rawVertex k)

/-- Array lookup `vertices[n]` (every index in `faceIndices` is in range, so
the out-of-range default is never taken). -/
noncomputable def vlookup (n : ℕ) : Vec3 :=
  if h : n < 12 then vertexTable ⟨n, h⟩ else 0

/-- `faceIndices`, lines 138–143. -/
def faceIndicesList : List (ℕ × ℕ × ℕ) :=
  [(0, 11, 5), (0, 5, 1), (0, 1, 7), (0, 7, 10), (0, 10, 11),
   (1, 5, 9), (5, 11, 4), (11, 10, 2), (10, 7, 6), (7, 1, 8),
   (3, 9, 4), (3, 4, 2), (3, 2, 6), (3, 6, 8), (3, 8, 9),
   (4, 9, 5), (2, 4, 11), (6, 2, 10), (8, 6, 7), (9, 8, 1)]

/-- One entry of `faceData`: the three vertices and the outward normal. -/
structure Face where
  v1 : Vec3
  v2 : Vec3
  v3 : Vec3
  normal : Vec3

instance : Inhabited Face := ⟨⟨0, 0, 0, 0⟩⟩

/-- The loop body of lines 147–175: edges from the first vertex, normalized
cross product, and the sign correction against the face center. -/
noncomputable def mkFace (t : ℕ × ℕ × ℕ) : Face :=
  let v1 := vlookup t.1
  let v2 := vlookup t.2.1
  let v3 := vlookup t.2.2
  let edge1 := v2 - v1
  let edge2 := v3 - v1
  let n0 := Vec3.normalize (Vec3.cross edge1 edge2)
  let faceCenter := (1 / 3 : ℝ) • (v1 + v2 + v3)
  ⟨v1, v2, v3, if Vec3.dot n0 faceCenter < 0 then -n0 else n0⟩

/-- `createStandardIcosahedron()`: the 20-entry `faceData` array. -/
noncomputable def faces : List Face := faceIndicesList.map mkFace

/-! ## `detectFacingFace` (lines 216–239) and
`calculateTargetQuaternion` (lines 242–258) -/

/-- Line 219: `const cameraDirection = new THREE.Vector3(0, 0, 1)`. -/
def cameraDirection : Vec3 := ⟨0, 0, 1⟩

/-- The `faces.forEach` scan of lines 224–236: `maxDot` starts at
`-Infinity` (modelled by `none`, which every real dot beats) and
`facingFaceIndex` starts at `0`; a face wins only with a strictly larger
dot, so the first maximum is kept. -/
noncomputable def detectScan (q : Quat) :
    List Face → ℕ → Option ℝ → ℕ → ℕ
  | [], _, _, best => best
  | face :: rest, index, maxDot, best =>
    let d := Vec3.dot (applyQuaternion q face.normal) cameraDirection
    match maxDot with
    | none => detectScan q rest (index + 1) (some d) index
    | some m =>
      if m < d then detectScan q rest (index + 1) (some d) index
      else detectScan q rest (index + 1) (some m) best

/-- `detectFacingFace` for a given current orientation (the component reads
`groupRef.current.quaternion`; the empty-faces early return yields `-1`). -/
noncomputable def detectFacingFace (q : Quat) : ℤ :=
  if faces.length = 0 then -1 else (detectScan q faces 0 none 0 : ℤ)

/-- `calculateTargetQuaternion`, abstracted over the face list it closes
over (the component always passes `faces`). Out-of-range indices and an
empty list return the identity quaternion. -/
noncomputable def calculateTargetQuaternionWith (fs : List Face) (faceIndex : ℤ) : Quat :=
  if fs.length = 0 ∨ faceIndex < 0 ∨ (fs.length : ℤ) ≤ faceIndex then Quat.one
  else
    let faceNormal := Vec3.normalize (fs.getD faceIndex.toNat default).normal
    setFromUnitVectors faceNormal ⟨0, 0, 1⟩

/-- `calculateTargetQuaternion(faceIndex)` as the component uses it. -/
noncomputable def calculateTargetQuaternion (faceIndex : ℤ) : Quat :=
  calculateTargetQuaternionWith faces faceIndex

/-! ## The computable shadow of the icosahedron construction

`wTable k` is exactly `2 • rawVertex k`, with coordinates written in ℤ[√5]
(so `2 * phi = 1 + √5` becomes `⟨1, 1⟩`). All discrete facts about the
geometry are decided here and transported along `Z5.toReal`. -/

def wTable : Fin 12 → V3Z
  | 0 => ⟨⟨-2, 0⟩, ⟨1, 1⟩, ⟨0, 0⟩⟩
  | 1 => ⟨⟨2, 0⟩, ⟨1, 1⟩, ⟨0, 0⟩⟩
  | 2 => ⟨⟨-2, 0⟩, ⟨-1, -1⟩, ⟨0, 0⟩⟩
  | 3 => ⟨⟨2, 0⟩, ⟨-1, -1⟩, ⟨0, 0⟩⟩
  | 4 => ⟨⟨0, 0⟩, ⟨-2, 0⟩, ⟨1, 1⟩⟩
  | 5 => ⟨⟨0, 0⟩, ⟨2, 0⟩, ⟨1, 1⟩⟩
  | 6 => ⟨⟨0, 0⟩, ⟨-2, 0⟩, ⟨-1, -1⟩⟩
  | 7 => ⟨⟨0, 0⟩, ⟨2, 0⟩, ⟨-1, -1⟩⟩
  | 8 => ⟨⟨1, 1⟩, ⟨0, 0⟩, ⟨-2, 0⟩⟩
  | 9 => ⟨⟨1, 1⟩, ⟨0, 0⟩, ⟨2, 0⟩⟩
  | 10 => ⟨⟨-1, -1⟩, ⟨0, 0⟩, ⟨-2, 0⟩⟩
  | 11 => ⟨⟨-1, -1⟩, ⟨0, 0⟩, ⟨2, 0⟩⟩

def wlookup (n : ℕ) : V3Z :=
  if h : n < 12 then wTable ⟨n, h⟩ else ⟨⟨0, 0⟩, ⟨0, 0⟩, ⟨0, 0⟩⟩

/-- Shadow of the face's index triple. -/
def idxT (i : Fin 20) : ℕ × ℕ × ℕ := faceIndicesList.getD i (0, 0, 0)

/-- Shadow of `cross(edge1, edge2)` (scaled by 4 relative to the raw
vertices, i.e. by `4 / σ²` relative to the rendered ones). -/
def crossW (t : ℕ × ℕ × ℕ) : V3Z :=
  V3Z.cross ((wlookup t.2.1).sub (wlookup t.1)) ((wlookup t.2.2).sub (wlookup t.1))

/-- Shadow of `v1 + v2 + v3` (six times the face center of the raw mesh). -/
def sumW (t : ℕ × ℕ × ℕ) : V3Z :=
  (wlookup t.1).add ((wlookup t.2.1).add (wlookup t.2.2))

/-- Shadow of the sign-corrected (unnormalized) face normal. -/
def shadowNormal (t : ℕ × ℕ × ℕ) : V3Z :=
  if Z5.blt (V3Z.dot (crossW t) (sumW t)) Z5.zero then (crossW t).neg else crossW t

/-- The 20 shadow normals, in face order. -/
def NZ (i : Fin 20) : V3Z := shadowNormal (idxT i)

/-! ### Decided facts about the shadow geometry -/

lemma shadow_vertex_norm : ∀ k : Fin 12, V3Z.dot (wTable k) (wTable k) = ⟨10, 2⟩ := by
  decide

lemma shadow_cross_norm : ∀ i : Fin 20,
    V3Z.dot (crossW (idxT i)) (crossW (idxT i)) = ⟨192, 0⟩ := by decide

lemma shadow_normal_norm : ∀ i : Fin 20, V3Z.dot (NZ i) (NZ i) = ⟨192, 0⟩ := by decide

lemma shadow_pairwise : ∀ i j : Fin 20, i ≠ j →
    Z5.blt (V3Z.dot (NZ j) (NZ i)) ⟨192, 0⟩ = true := by decide

lemma shadow_outward : ∀ i : Fin 20,
    Z5.blt Z5.zero (V3Z.dot (NZ i) (sumW (idxT i))) = true := by decide

lemma shadow_z_low : ∀ i : Fin 20, Z5.ble ⟨-13, 0⟩ (NZ i).z = true := by decide

lemma shadow_edges : ∀ i : Fin 20,
    V3Z.dot ((wlookup (idxT i).2.1).sub (wlookup (idxT i).1))
      ((wlookup (idxT i).2.1).sub (wlookup (idxT i).1)) = ⟨16, 0⟩ ∧
    V3Z.dot ((wlookup (idxT i).2.2).sub (wlookup (idxT i).2.1))
      ((wlookup (idxT i).2.2).sub (wlookup (idxT i).2.1)) = ⟨16, 0⟩ ∧
    V3Z.dot ((wlookup (idxT i).1).sub (wlookup (idxT i).2.2))
      ((wlookup (idxT i).1).sub (wlookup (idxT i).2.2)) = ⟨16, 0⟩ := by decide

/-! ## Transport from the shadow to the real embedding -/

lemma toVec3_add (u v : V3Z) : toVec3 (u.add v) = toVec3 u + toVec3 v := by
  simp only [toVec3, V3Z.add, Z5.toReal_add]; rfl

lemma toVec3_sub (u v : V3Z) : toVec3 (u.sub v) = toVec3 u - toVec3 v := by
  simp only [toVec3, V3Z.sub, Z5.toReal_sub]; rfl

lemma toVec3_neg (u : V3Z) : toVec3 u.neg = -(toVec3 u) := by
  simp only [toVec3, V3Z.neg, Z5.toReal_neg]; rfl

lemma dot_toVec3 (u v : V3Z) :
    Vec3.dot (toVec3 u) (toVec3 v) = (V3Z.dot u v).toReal := by
  simp only [toVec3, Vec3.dot, V3Z.dot, Z5.toReal_add, Z5.toReal_mul]
  ring

lemma cross_toVec3 (u v : V3Z) :
    Vec3.cross (toVec3 u) (toVec3 v) = toVec3 (V3Z.cross u v) := by
  simp only [toVec3, Vec3.cross, V3Z.cross, Z5.toReal_sub, Z5.toReal_mul]

lemma cross_smul_smul (s t : ℝ) (u v : Vec3) :
    Vec3.cross (s • u) (t • v) = (s * t) • Vec3.cross u v := by
  ext <;> simp [Vec3.cross] <;> ring

lemma dot_smul_left (t : ℝ) (u v : Vec3) :
    Vec3.dot (t • u) v = t * Vec3.dot u v := by
  simp [Vec3.dot]; ring

lemma dot_smul_right (t : ℝ) (u v : Vec3) :
    Vec3.dot u (t • v) = t * Vec3.dot u v := by
  simp [Vec3.dot]; ring

lemma dot_neg_left (u v : Vec3) : Vec3.dot (-u) v = -(Vec3.dot u v) := by
  simp [Vec3.dot]; ring

lemma length_smul (t : ℝ) (ht : 0 ≤ t) (v : Vec3) :
    Vec3.length (t • v) = t * Vec3.length v := by
  have : Vec3.dot (t • v) (t • v) = t ^ 2 * Vec3.dot v v := by
    simp [Vec3.dot]; ring
  rw [Vec3.length, this, Real.sqrt_mul (by positivity), Real.sqrt_sq ht, Vec3.length]

lemma dot_self_nonneg (v : Vec3) : 0 ≤ Vec3.dot v v := by
  simp only [Vec3.dot]
  linarith [mul_self_nonneg v.x, mul_self_nonneg v.y, mul_self_nonneg v.z]

lemma eq_zero_of_dot_self (v : Vec3) (h : Vec3.dot v v = 0) : v = 0 := by
  simp only [Vec3.dot] at h
  ext <;> simp only [Vec3.zero_x, Vec3.zero_y, Vec3.zero_z] <;>
    nlinarith [mul_self_nonneg v.x, mul_self_nonneg v.y, mul_self_nonneg v.z]

lemma length_eq_zero_iff (v : Vec3) : Vec3.length v = 0 ↔ v = 0 := by
  rw [Vec3.length, Real.sqrt_eq_zero (dot_self_nonneg v)]
  constructor
  · exact eq_zero_of_dot_self v
  · intro h; subst h; simp [Vec3.dot]

lemma normalize_smul (t : ℝ) (ht : 0 < t) (v : Vec3) :
    Vec3.normalize (t • v) = Vec3.normalize v := by
  rw [Vec3.normalize, Vec3.normalize, length_smul t ht.le]
  by_cases h : Vec3.length v = 0
  · have hv : v = 0 := (length_eq_zero_iff v).mp h
    subst hv
    rw [h]
    ext <;> simp
  · have h1 : t * Vec3.length v ≠ 0 := mul_ne_zero ht.ne' h
    rw [if_neg h1, if_neg h]
    ext <;> simp <;> field_simp <;> ring

lemma normalize_of_dot (v : Vec3) (c : ℝ) (hc : 0 < c) (h : Vec3.dot v v = c) :
    Vec3.normalize v = (1 / Real.sqrt c) • v := by
  have hl : Vec3.length v = Real.sqrt c := by rw [Vec3.length, h]
  have hne : Vec3.length v ≠ 0 := by
    rw [hl]; exact (Real.sqrt_pos.mpr hc).ne'
  rw [Vec3.normalize, if_neg hne, hl]

/-- normalize is the identity on unit vectors. -/
lemma normalize_unit (v : Vec3) (h : Vec3.dot v v = 1) : Vec3.normalize v = v := by
  rw [normalize_of_dot v 1 one_pos h]
  ext <;> simp [Real.sqrt_one]

/-! ### The raw vertices are half the shadow vertices -/

lemma rawVertex_eq (k : Fin 12) :
    rawVertex k = (1 / 2 : ℝ) • toVec3 (wTable k) := by
  have h1 : ((1 : ℝ) + (1 : ℝ) * Real.sqrt 5) / 2 = phi := by rw [phi]; ring
  fin_cases k <;>
    · ext <;> simp [rawVertex, wTable, toVec3, Z5.toReal, phi] <;> ring

/-- The common squared length of the shadow vertices, as a real number. -/
noncomputable def omegaSq : ℝ := 10 + 2 * Real.sqrt 5

lemma omegaSq_pos : 0 < omegaSq := by
  have := Z5.sqrt5_pos
  rw [omegaSq]; nlinarith

lemma toReal_omegaSq : Z5.toReal ⟨10, 2⟩ = omegaSq := by
  simp [Z5.toReal, omegaSq]

lemma dot_wTable (k : Fin 12) :
    Vec3.dot (toVec3 (wTable k)) (toVec3 (wTable k)) = omegaSq := by
  rw [dot_toVec3, shadow_vertex_norm k, toReal_omegaSq]

/-- The rendered vertex in terms of the shadow vertex. -/
lemma vertexTable_eq (k : Fin 12) :
    vertexTable k = (2 / Real.sqrt omegaSq) • toVec3 (wTable k) := by
  rw [vertexTable, rawVertex_eq, normalize_smul (1 / 2) (by norm_num),
    normalize_of_dot _ omegaSq omegaSq_pos (dot_wTable k), radius]
  ext <;> simp <;> ring

lemma vlookup_eq (n : ℕ) :
    vlookup n = (2 / Real.sqrt omegaSq) • toVec3 (wlookup n) := by
  rw [vlookup, wlookup]
  by_cases h : n < 12
  · rw [dif_pos h, dif_pos h, vertexTable_eq]
  · rw [dif_neg h, dif_neg h]
    ext <;> simp [toVec3, Z5.toReal]

/-- The positive scale factor from shadow coordinates to rendered ones. -/
noncomputable def sigma : ℝ := 2 / Real.sqrt omegaSq

lemma sigma_pos : 0 < sigma := by
  rw [sigma]
  have := Real.sqrt_pos.mpr omegaSq_pos
  positivity

lemma smul_sub_vec (t : ℝ) (u v : Vec3) : t • (u - v) = t • u - t • v := by
  ext <;> simp <;> ring

lemma smul_add_vec (t : ℝ) (u v : Vec3) : t • (u + v) = t • u + t • v := by
  ext <;> simp <;> ring

lemma smul_smul_vec (s t : ℝ) (v : Vec3) : s • t • v = (s * t) • v := by
  ext <;> simp <;> ring

lemma neg_smul_vec (t : ℝ) (v : Vec3) : -(t • v) = t • (-v) := by
  ext <;> simp <;> ring

lemma toReal_192 : Z5.toReal ⟨192, 0⟩ = 192 := by simp [Z5.toReal]

lemma sqrt192_sq : Real.sqrt 192 * Real.sqrt 192 = 192 :=
  Real.mul_self_sqrt (by norm_num)

lemma sqrt192_pos : 0 < Real.sqrt 192 := Real.sqrt_pos.mpr (by norm_num)

/-- The rendered face normal is the scaled shadow normal: the whole chain
of lines 148–169 (edges, cross product, normalization, sign correction)
commutes with the shadow construction. -/
lemma mkFace_normal (t : ℕ × ℕ × ℕ)
    (hc : V3Z.dot (crossW t) (crossW t) = ⟨192, 0⟩) :
    (mkFace t).normal = (1 / Real.sqrt 192) • toVec3 (shadowNormal t) := by
  have hv1 := vlookup_eq t.1
  have hv2 := vlookup_eq t.2.1
  have hv3 := vlookup_eq t.2.2
  have hσ : (0 : ℝ) < 2 / Real.sqrt omegaSq := by
    have := Real.sqrt_pos.mpr omegaSq_pos
    positivity
  -- the cross product of the rendered edges is the scaled shadow cross product
  have hcross : Vec3.cross (vlookup t.2.1 - vlookup t.1) (vlookup t.2.2 - vlookup t.1)
      = ((2 / Real.sqrt omegaSq) * (2 / Real.sqrt omegaSq)) • toVec3 (crossW t) := by
    rw [hv1, hv2, hv3, ← smul_sub_vec, ← smul_sub_vec, ← toVec3_sub, ← toVec3_sub,
      cross_smul_smul, cross_toVec3, crossW]
  -- its normalization
  have hdotc : Vec3.dot (toVec3 (crossW t)) (toVec3 (crossW t)) = 192 := by
    rw [dot_toVec3, hc, toReal_192]
  have hn0 : Vec3.normalize (Vec3.cross (vlookup t.2.1 - vlookup t.1)
      (vlookup t.2.2 - vlookup t.1)) = (1 / Real.sqrt 192) • toVec3 (crossW t) := by
    rw [hcross, normalize_smul _ (by positivity),
      normalize_of_dot _ 192 (by norm_num) hdotc]
  -- the rendered face center is the scaled shadow vertex sum
  have hcenter : (1 / 3 : ℝ) • (vlookup t.1 + (vlookup t.2.1 + vlookup t.2.2))
      = ((2 / Real.sqrt omegaSq) * (1 / 3)) • toVec3 (sumW t) := by
    rw [hv1, hv2, hv3, ← smul_add_vec, ← smul_add_vec, ← toVec3_add, ← toVec3_add,
      smul_smul_vec, sumW]
    ring_nf
  -- the sign test matches the shadow sign test
  have hsign : Vec3.dot ((1 / Real.sqrt 192) • toVec3 (crossW t))
      (((2 / Real.sqrt omegaSq) * (1 / 3)) • toVec3 (sumW t))
      = ((1 / Real.sqrt 192) * ((2 / Real.sqrt omegaSq) * (1 / 3)))
        * (V3Z.dot (crossW t) (sumW t)).toReal := by
    rw [dot_smul_left, dot_smul_right, dot_toVec3]; ring
  have hκ : (0 : ℝ) < (1 / Real.sqrt 192) * ((2 / Real.sqrt omegaSq) * (1 / 3)) := by
    have := sqrt192_pos
    have := Real.sqrt_pos.mpr omegaSq_pos
    positivity
  show (if Vec3.dot (Vec3.normalize _) _ < 0 then _ else _) = _
  rw [show vlookup t.1 + vlookup t.2.1 + vlookup t.2.2
      = vlookup t.1 + (vlookup t.2.1 + vlookup t.2.2) by ext <;> simp <;> ring]
  rw [hn0, hcenter, hsign, shadowNormal]
  by_cases hneg : (V3Z.dot (crossW t) (sumW t)).toReal < 0
  · have hlt : (1 / Real.sqrt 192) * ((2 / Real.sqrt omegaSq) * (1 / 3))
        * (V3Z.dot (crossW t) (sumW t)).toReal < 0 :=
      mul_neg_of_pos_of_neg hκ hneg
    have hblt : Z5.blt (V3Z.dot (crossW t) (sumW t)) Z5.zero = true := by
      rw [Z5.blt_iff, Z5.toReal_zero]; exact hneg
    rw [if_pos hlt, if_pos hblt, toVec3_neg, ← neg_smul_vec]
  · have hge : ¬((1 / Real.sqrt 192) * ((2 / Real.sqrt omegaSq) * (1 / 3))
        * (V3Z.dot (crossW t) (sumW t)).toReal < 0) := by
      push_neg at hneg ⊢
      exact mul_nonneg hκ.le hneg
    have hblt : ¬ Z5.blt (V3Z.dot (crossW t) (sumW t)) Z5.zero = true := by
      rw [Z5.blt_iff, Z5.toReal_zero]
      push_neg at hneg ⊢
      exact hneg
    rw [if_neg hge, if_neg hblt]

/-- `faceData[i]`. -/
noncomputable def faceAt (i : Fin 20) : Face := faces.getD i default

lemma faceAt_eq (i : Fin 20) : faceAt i = mkFace (idxT i) := by
  fin_cases i <;> rfl

lemma faces_length : faces.length = 20 := rfl

/-- The rendered normal of face `i` in terms of the shadow normal. -/
lemma faceNormal_eq (i : Fin 20) :
    (faceAt i).normal = (1 / Real.sqrt 192) • toVec3 (NZ i) := by
  rw [faceAt_eq, NZ, mkFace_normal _ (shadow_cross_norm i)]

/-- Every rendered face normal is a unit vector. -/
lemma faceNormal_unit (i : Fin 20) :
    Vec3.dot (faceAt i).normal (faceAt i).normal = 1 := by
  rw [faceNormal_eq, dot_smul_left, dot_smul_right, dot_toVec3,
    shadow_normal_norm i, toReal_192]
  have h := sqrt192_sq
  have hpos := sqrt192_pos
  field_simp

/-- The dot of two rendered normals in terms of the shadow dot. -/
lemma faceNormal_dot (i j : Fin 20) :
    Vec3.dot (faceAt i).normal (faceAt j).normal
      = (V3Z.dot (NZ i) (NZ j)).toReal / 192 := by
  rw [faceNormal_eq, faceNormal_eq, dot_smul_left, dot_smul_right, dot_toVec3]
  have h := sqrt192_sq
  have hpos := sqrt192_pos
  field_simp

/-- Distinct faces have normal dot strictly below 1. -/
lemma faceNormal_dot_lt (i j : Fin 20) (hij : j ≠ i) :
    Vec3.dot (faceAt j).normal (faceAt i).normal < 1 := by
  rw [faceNormal_dot]
  have h := (Z5.blt_iff _ _).mp (shadow_pairwise i j (Ne.symm hij))
  rw [toReal_192] at h
  rw [div_lt_one (by norm_num : (0 : ℝ) < 192)]
  exact h

/-! ## Generic quaternion rotation lemmas -/

/-- `applyQuaternion` at a uniformly scaled quaternion, as a polynomial
identity: scaling moves the rotation part quadratically. -/
lemma applyQ_scaled (q : Quat) (t : ℝ) (v : Vec3) :
    applyQuaternion ⟨t * q.x, t * q.y, t * q.z, t * q.w⟩ v =
      v + (t * t) • (applyQuaternion q v - v) := by
  ext <;> simp [applyQuaternion, Vec3.cross] <;> ring

/-- A unit quaternion's `applyQuaternion` preserves dot products. -/
lemma rot_dot (q : Quat) (h : Quat.dotQ q q = 1) (a b : Vec3) :
    Vec3.dot (applyQuaternion q a) (applyQuaternion q b) = Vec3.dot a b := by
  have h' : q.x * q.x + q.y * q.y + q.z * q.z + q.w * q.w = 1 := h
  simp only [applyQuaternion, Vec3.dot, Vec3.cross, Vec3.add_x, Vec3.add_y,
    Vec3.add_z, Vec3.smul_x, Vec3.smul_y, Vec3.smul_z]
  linear_combination (4 * q.z ^ 2 * a.y * b.y + 4 * q.z ^ 2 * a.x * b.x
    - 4 * q.y * q.z * a.z * b.y - 4 * q.y * q.z * a.y * b.z
    + 4 * q.y ^ 2 * a.z * b.z + 4 * q.y ^ 2 * a.x * b.x
    - 4 * q.x * q.z * a.z * b.x - 4 * q.x * q.z * a.x * b.z
    - 4 * q.x * q.y * a.y * b.x - 4 * q.x * q.y * a.x * b.y
    + 4 * q.x ^ 2 * a.z * b.z + 4 * q.x ^ 2 * a.y * b.y) * h'

/-- Applying the unnormalized `setFromUnitVectors` quaternion
`(a × b, a·b + 1)` to the unit vector `a` lands at
`a + 2(a·b + 1)(b - a)`. -/
lemma applyQ_crossQuat (a b : Vec3) (ha : Vec3.dot a a = 1) (hb : Vec3.dot b b = 1) :
    applyQuaternion ⟨a.y * b.z - a.z * b.y, a.z * b.x - a.x * b.z,
      a.x * b.y - a.y * b.x, Vec3.dot a b + 1⟩ a =
      a + (2 * (Vec3.dot a b + 1)) • (b - a) := by
  have ha' : a.x * a.x + a.y * a.y + a.z * a.z = 1 := ha
  have hb' : b.x * b.x + b.y * b.y + b.z * b.z = 1 := hb
  ext
  · simp only [applyQuaternion, Vec3.dot, Vec3.cross, Vec3.add_x, Vec3.add_y,
      Vec3.add_z, Vec3.smul_x, Vec3.smul_y, Vec3.smul_z, Vec3.sub_x, Vec3.sub_y,
      Vec3.sub_z]
    linear_combination (2 * b.x + 2 * a.z * b.x * b.z + 2 * a.y * b.x * b.y
      - 2 * a.x * b.z ^ 2 - 2 * a.x * b.y ^ 2) * ha' + (-2 * a.x) * hb'
  · simp only [applyQuaternion, Vec3.dot, Vec3.cross, Vec3.add_x, Vec3.add_y,
      Vec3.add_z, Vec3.smul_x, Vec3.smul_y, Vec3.smul_z, Vec3.sub_x, Vec3.sub_y,
      Vec3.sub_z]
    linear_combination (2 * b.y + 2 * a.z * b.y * b.z - 2 * a.y * b.z ^ 2
      - 2 * a.y * b.x ^ 2 + 2 * a.x * b.x * b.y) * ha' + (-2 * a.y) * hb'
  · simp only [applyQuaternion, Vec3.dot, Vec3.cross, Vec3.add_x, Vec3.add_y,
      Vec3.add_z, Vec3.smul_x, Vec3.smul_y, Vec3.smul_z, Vec3.sub_x, Vec3.sub_y,
      Vec3.sub_z]
    linear_combination (2 * b.z - 2 * a.z * b.y ^ 2 - 2 * a.z * b.x ^ 2
      + 2 * a.y * b.y * b.z + 2 * a.x * b.x * b.z) * ha' + (-2 * a.z) * hb'

/-- The squared length of the unnormalized `setFromUnitVectors` quaternion
is `2(a·b + 1)` for unit `a`, `b`. -/
lemma normSq_crossQuat (a b : Vec3) (ha : Vec3.dot a a = 1) (hb : Vec3.dot b b = 1) :
    Quat.dotQ ⟨a.y * b.z - a.z * b.y, a.z * b.x - a.x * b.z,
        a.x * b.y - a.y * b.x, Vec3.dot a b + 1⟩
      ⟨a.y * b.z - a.z * b.y, a.z * b.x - a.x * b.z,
        a.x * b.y - a.y * b.x, Vec3.dot a b + 1⟩
      = 2 * (Vec3.dot a b + 1) := by
  have ha' : a.x * a.x + a.y * a.y + a.z * a.z = 1 := ha
  have hb' : b.x * b.x + b.y * b.y + b.z * b.z = 1 := hb
  simp only [Quat.dotQ, Vec3.dot]
  linear_combination (b.x * b.x + b.y * b.y + b.z * b.z) * ha' + hb'

lemma jsEpsilon_pos : (0 : ℝ) < jsEpsilon := by rw [jsEpsilon]; positivity

lemma normalizeQ_of_pos (q : Quat) (hq : 0 < Quat.dotQ q q) :
    Quat.normalizeQ q = ⟨(1 / Quat.lengthQ q) * q.x, (1 / Quat.lengthQ q) * q.y,
      (1 / Quat.lengthQ q) * q.z, (1 / Quat.lengthQ q) * q.w⟩ := by
  have hL : Quat.lengthQ q ≠ 0 := by
    rw [Quat.lengthQ]; exact (Real.sqrt_pos.mpr hq).ne'
  rw [Quat.normalizeQ, if_neg hL]
  ext <;> simp <;> field_simp

lemma lengthQ_sq (q : Quat) (hq : 0 ≤ Quat.dotQ q q) :
    Quat.lengthQ q * Quat.lengthQ q = Quat.dotQ q q := by
  rw [Quat.lengthQ]; exact Real.mul_self_sqrt hq

/-- `normalize()` really produces a unit quaternion when the input has
positive squared length. -/
lemma dotQ_normalizeQ (q : Quat) (hq : 0 < Quat.dotQ q q) :
    Quat.dotQ (Quat.normalizeQ q) (Quat.normalizeQ q) = 1 := by
  have key : (1 / Quat.lengthQ q) * (1 / Quat.lengthQ q) * Quat.dotQ q q = 1 := by
    rw [div_mul_div_comm, one_mul, lengthQ_sq q hq.le]
    exact one_div_mul_cancel hq.ne'
  rw [normalizeQ_of_pos q hq]
  simp only [Quat.dotQ] at key ⊢
  linear_combination key

/-- The central property of `setFromUnitVectors`: for unit `a`, `b` whose
dot is not within `Number.EPSILON` of `-1`, the produced quaternion rotates
`a` exactly onto `b`. -/
lemma setFromUnitVectors_apply (a b : Vec3) (ha : Vec3.dot a a = 1)
    (hb : Vec3.dot b b = 1) (hr : jsEpsilon ≤ Vec3.dot a b + 1) :
    applyQuaternion (setFromUnitVectors a b) a = b := by
  have hrpos : 0 < Vec3.dot a b + 1 := lt_of_lt_of_le jsEpsilon_pos hr
  simp only [setFromUnitVectors]
  rw [if_neg (not_lt.mpr hr)]
  have hQ := normSq_crossQuat a b ha hb
  have hQpos : 0 < Quat.dotQ ⟨a.y * b.z - a.z * b.y, a.z * b.x - a.x * b.z,
      a.x * b.y - a.y * b.x, Vec3.dot a b + 1⟩
      ⟨a.y * b.z - a.z * b.y, a.z * b.x - a.x * b.z,
      a.x * b.y - a.y * b.x, Vec3.dot a b + 1⟩ := by rw [hQ]; linarith
  rw [normalizeQ_of_pos _ hQpos]
  rw [applyQ_scaled, applyQ_crossQuat a b ha hb]
  have hL2 := lengthQ_sq _ hQpos.le
  rw [hQ] at hL2
  have hr2 : 2 * (Vec3.dot a b + 1) ≠ 0 := by linarith
  have htt : (1 / Quat.lengthQ ⟨a.y * b.z - a.z * b.y, a.z * b.x - a.x * b.z,
        a.x * b.y - a.y * b.x, Vec3.dot a b + 1⟩)
      * (1 / Quat.lengthQ ⟨a.y * b.z - a.z * b.y, a.z * b.x - a.x * b.z,
        a.x * b.y - a.y * b.x, Vec3.dot a b + 1⟩)
      = 1 / (2 * (Vec3.dot a b + 1)) := by
    rw [div_mul_div_comm, one_mul, hL2]
  rw [htt]
  ext <;>
    simp only [Vec3.add_x, Vec3.add_y, Vec3.add_z, Vec3.smul_x, Vec3.smul_y,
      Vec3.smul_z, Vec3.sub_x, Vec3.sub_y, Vec3.sub_z] <;>
    field_simp

/-! ## The first-maximum characterization of the `detectFacingFace` scan -/

/-- The quantity the scan compares: the world-space normal's dot with the
camera direction. -/
noncomputable def faceDot (q : Quat) (f : Face) : ℝ :=
  Vec3.dot (applyQuaternion q f.normal) cameraDirection

lemma getD_mem_of_lt (l : List Face) (j : ℕ) (hj : j < l.length) :
    l.getD j default ∈ l := by
  rw [List.getD_eq_getElem l default hj]
  exact List.getElem_mem hj

/-- Invariant of the scan once `maxDot` carries a real value `m`: either no
remaining face beats `m` and the saved `best` index is returned, or the scan
returns the position of the first strict maximum of the remaining dots
above `m`. -/
lemma detectScan_some_spec (q : Quat) (fs : List Face) :
    ∀ (idx : ℕ) (m : ℝ) (b : ℕ),
    (detectScan q fs idx (some m) b = b ∧ ∀ f ∈ fs, faceDot q f ≤ m) ∨
    (∃ k, k < fs.length ∧ detectScan q fs idx (some m) b = idx + k ∧
      m < faceDot q (fs.getD k default) ∧
      (∀ j, j < fs.length → j < k →
        faceDot q (fs.getD j default) < faceDot q (fs.getD k default)) ∧
      (∀ j, j < fs.length →
        faceDot q (fs.getD j default) ≤ faceDot q (fs.getD k default))) := by
  induction fs with
  | nil =>
    intro idx m b
    left
    exact ⟨rfl, by simp⟩
  | cons f rest ih =>
    intro idx m b
    have hunfold : detectScan q (f :: rest) idx (some m) b
        = if m < faceDot q f then detectScan q rest (idx + 1) (some (faceDot q f)) idx
          else detectScan q rest (idx + 1) (some m) b := rfl
    by_cases hmd : m < faceDot q f
    · have hstep : detectScan q (f :: rest) idx (some m) b
          = detectScan q rest (idx + 1) (some (faceDot q f)) idx := by
        rw [hunfold, if_pos hmd]
      rcases ih (idx + 1) (faceDot q f) idx with ⟨heq, hall⟩ |
        ⟨k, hk, heq, hgt, hbefore, hle⟩
      · right
        refine ⟨0, by simp, by rw [hstep, heq]; omega, by simpa using hmd, ?_, ?_⟩
        · intro j hj hj0; omega
        · intro j hj
          match j, hj with
          | 0, _ => exact le_refl _
          | j + 1, hj =>
            simpa using hall (rest.getD j default)
              (getD_mem_of_lt rest j (by simpa using hj))
      · right
        refine ⟨k + 1, by simpa using Nat.succ_lt_succ hk,
          by rw [hstep, heq]; omega, ?_, ?_, ?_⟩
        · simpa using lt_trans hmd hgt
        · intro j hj hjk
          match j, hj with
          | 0, _ => simpa using hgt
          | j + 1, hj => simpa using hbefore j (by simpa using hj) (by omega)
        · intro j hj
          match j, hj with
          | 0, _ => simpa using le_of_lt hgt
          | j + 1, hj => simpa using hle j (by simpa using hj)
    · have hstep : detectScan q (f :: rest) idx (some m) b
          = detectScan q rest (idx + 1) (some m) b := by
        rw [hunfold, if_neg hmd]
      push_neg at hmd
      rcases ih (idx + 1) m b with ⟨heq, hall⟩ | ⟨k, hk, heq, hgt, hbefore, hle⟩
      · left
        refine ⟨by rw [hstep, heq], ?_⟩
        intro g hg
        rcases List.mem_cons.mp hg with hg | hg
        · subst hg; exact hmd
        · exact hall g hg
      · right
        refine ⟨k + 1, by simpa using Nat.succ_lt_succ hk,
          by rw [hstep, heq]; omega, by simpa using hgt, ?_, ?_⟩
        · intro j hj hjk
          match j, hj with
          | 0, _ => simpa using lt_of_le_of_lt hmd hgt
          | j + 1, hj => simpa using hbefore j (by simpa using hj) (by omega)
        · intro j hj
          match j, hj with
          | 0, _ => simpa using le_trans hmd (le_of_lt hgt)
          | j + 1, hj => simpa using hle j (by simpa using hj)

/-- After the first face initializes `maxDot`, the scan returns the first
maximum of the whole list. -/
lemma detectScan_cons_spec (q : Quat) (f : Face) (rest : List Face) :
    ∃ k, k < (f :: rest).length ∧
      detectScan q (f :: rest) 0 none 0 = k ∧
      (∀ j, j < (f :: rest).length → j < k →
        faceDot q ((f :: rest).getD j default) < faceDot q ((f :: rest).getD k default)) ∧
      (∀ j, j < (f :: rest).length →
        faceDot q ((f :: rest).getD j default) ≤ faceDot q ((f :: rest).getD k default)) := by
  have hstep : detectScan q (f :: rest) 0 none 0
      = detectScan q rest 1 (some (faceDot q f)) 0 := rfl
  rcases detectScan_some_spec q rest 1 (faceDot q f) 0 with ⟨heq, hall⟩ |
    ⟨k, hk, heq, hgt, hbefore, hle⟩
  · refine ⟨0, by simp, by rw [hstep, heq], ?_, ?_⟩
    · intro j hj hj0; omega
    · intro j hj
      match j, hj with
      | 0, _ => exact le_refl _
      | j + 1, hj =>
        simpa using hall (rest.getD j default) (getD_mem_of_lt rest j (by simpa using hj))
  · refine ⟨k + 1, by simpa using Nat.succ_lt_succ hk, by rw [hstep, heq]; omega, ?_, ?_⟩
    · intro j hj hjk
      match j, hj with
      | 0, _ => simpa using hgt
      | j + 1, hj => simpa using hbefore j (by simpa using hj) (by omega)
    · intro j hj
      match j, hj with
      | 0, _ => simpa using le_of_lt hgt
      | j + 1, hj => simpa using hle j (by simpa using hj)

/-- `detectFacingFace` on the concrete 20-face list, characterized as the
first index attaining the maximal camera dot. -/
lemma detectFacingFace_firstmax (q : Quat) :
    ∃ r : Fin 20, detectFacingFace q = ((r : ℕ) : ℤ) ∧
      (∀ j : Fin 20, faceDot q (faceAt j) ≤ faceDot q (faceAt r)) ∧
      (∀ j : Fin 20, (j : ℕ) < (r : ℕ) →
        faceDot q (faceAt j) < faceDot q (faceAt r)) := by
  cases hfs : faces with
  | nil =>
    have : (20 : ℕ) = 0 := by rw [← faces_length, hfs]; rfl
    omega
  | cons f rest =>
    have hlen : (f :: rest).length = 20 := by rw [← hfs, faces_length]
    have hface : ∀ j : Fin 20, faceAt j = (f :: rest).getD (j : ℕ) default := by
      intro j; rw [faceAt, hfs]
    obtain ⟨k, hk, heq, hbef, hle⟩ := detectScan_cons_spec q f rest
    have hk20 : k < 20 := by omega
    refine ⟨⟨k, hk20⟩, ?_, ?_, ?_⟩
    · have h0 : ¬(faces.length = 0) := by rw [faces_length]; norm_num
      rw [detectFacingFace, if_neg h0, hfs, heq]
    · intro j
      rw [hface j, hface ⟨k, hk20⟩]
      exact hle (j : ℕ) (by omega)
    · intro j hj
      rw [hface j, hface ⟨k, hk20⟩]
      exact hbef (j : ℕ) (by omega) hj

/-! ## The target quaternion really brings the designated face to front -/

lemma camera_unit : Vec3.dot cameraDirection cameraDirection = 1 := by
  simp [Vec3.dot, cameraDirection]

/-- Unfolding `calculateTargetQuaternion` at a valid face index. -/
lemma targetQuat_eq (i : Fin 20) :
    calculateTargetQuaternion ((i : ℕ) : ℤ) =
      setFromUnitVectors (faceAt i).normal cameraDirection := by
  have hguard : ¬(faces.length = 0 ∨ ((i : ℕ) : ℤ) < 0 ∨
      (faces.length : ℤ) ≤ ((i : ℕ) : ℤ)) := by
    rw [faces_length]
    push_neg
    refine ⟨by norm_num, by positivity, ?_⟩
    exact_mod_cast i.isLt
  rw [calculateTargetQuaternion, calculateTargetQuaternionWith, if_neg hguard]
  rw [show (((i : ℕ) : ℤ)).toNat = (i : ℕ) from Int.toNat_natCast _]
  rw [show faces.getD (i : ℕ) default = faceAt i from rfl]
  rw [normalize_unit _ (faceNormal_unit i)]
  rfl

/-- The designated face's normal is never antiparallel enough to the camera
to trigger the `setFromUnitVectors` fallback: its `r` stays above
`Number.EPSILON`. -/
lemma faceNormal_r_bound (i : Fin 20) :
    jsEpsilon ≤ Vec3.dot (faceAt i).normal cameraDirection + 1 := by
  have hz : (-13 : ℝ) ≤ (NZ i).z.toReal := by
    have := (Z5.ble_iff ⟨-13, 0⟩ (NZ i).z).mp (shadow_z_low i)
    simpa [Z5.toReal] using this
  have hdot : Vec3.dot (faceAt i).normal cameraDirection
      = (1 / Real.sqrt 192) * (NZ i).z.toReal := by
    rw [faceNormal_eq]
    simp [Vec3.dot, cameraDirection, toVec3]
  have hs : (13.8 : ℝ) ≤ Real.sqrt 192 := by
    rw [show (13.8 : ℝ) = Real.sqrt (13.8 ^ 2) from (Real.sqrt_sq (by norm_num)).symm]
    exact Real.sqrt_le_sqrt (by norm_num)
  have hspos : (0 : ℝ) < Real.sqrt 192 := sqrt192_pos
  have hu : (0 : ℝ) < 1 / Real.sqrt 192 := by positivity
  have hub : 1 / Real.sqrt 192 ≤ 1 / 13.8 := by
    rw [div_le_div_iff hspos (by norm_num)]
    linarith
  have h1 : (1 / Real.sqrt 192) * (-13) ≤ (1 / Real.sqrt 192) * (NZ i).z.toReal :=
    mul_le_mul_of_nonneg_left hz hu.le
  have h2 : -(13 / 13.8) ≤ (1 / Real.sqrt 192) * (-13 : ℝ) := by
    have : (13 : ℝ) * (1 / Real.sqrt 192) ≤ 13 * (1 / 13.8) := by
      exact mul_le_mul_of_nonneg_left hub (by norm_num)
    nlinarith
  rw [hdot]
  have heps : jsEpsilon ≤ 1 - 13 / 13.8 := by rw [jsEpsilon]; norm_num
  linarith

/-- The computed target quaternion is unit length. -/
lemma targetQuat_unit (i : Fin 20) :
    Quat.dotQ (calculateTargetQuaternion ((i : ℕ) : ℤ))
      (calculateTargetQuaternion ((i : ℕ) : ℤ)) = 1 := by
  rw [targetQuat_eq]
  simp only [setFromUnitVectors]
  rw [if_neg (not_lt.mpr (faceNormal_r_bound i))]
  apply dotQ_normalizeQ
  rw [normSq_crossQuat _ _ (faceNormal_unit i) camera_unit]
  have h1 := faceNormal_r_bound i
  have h2 := jsEpsilon_pos
  linarith

/-- The target quaternion rotates the designated face's normal exactly onto
the camera direction. -/
lemma targetQuat_apply (i : Fin 20) :
    applyQuaternion (calculateTargetQuaternion ((i : ℕ) : ℤ)) (faceAt i).normal
      = cameraDirection := by
  rw [targetQuat_eq]
  exact setFromUnitVectors_apply _ _ (faceNormal_unit i) camera_unit
    (faceNormal_r_bound i)

/-- Under the target rotation for face `i`, face `j`'s camera dot is the
body-space dot of the two normals. -/
lemma faceDot_target (i j : Fin 20) :
    faceDot (calculateTargetQuaternion ((i : ℕ) : ℤ)) (faceAt j)
      = Vec3.dot (faceAt j).normal (faceAt i).normal := by
  rw [faceDot]
  conv_lhs => rw [show cameraDirection
    = applyQuaternion (calculateTargetQuaternion ((i : ℕ) : ℤ)) (faceAt i).normal
    from (targetQuat_apply i).symm]
  exact rot_dot _ (targetQuat_unit i) _ _

/-- The round trip: the face locator, run at the orientation computed for
face `i`, answers `i`. -/
lemma detect_target (i : Fin 20) :
    detectFacingFace (calculateTargetQuaternion ((i : ℕ) : ℤ)) = ((i : ℕ) : ℤ) := by
  obtain ⟨r, heq, hle, _⟩ :=
    detectFacingFace_firstmax (calculateTargetQuaternion ((i : ℕ) : ℤ))
  have hri : r = i := by
    by_contra hne
    have h1 := hle i
    rw [faceDot_target i i, faceDot_target i r, faceNormal_unit i] at h1
    exact absurd h1 (not_le.mpr (faceNormal_dot_lt i r hne))
  rw [heq, hri]

/-! ## `DiceOutcome` (src/types.ts) -/

inductive DiceOutcome
  | IDLE
  | ROLLING
  | GREAT_FORTUNE
  | GREAT_MISFORTUNE
deriving DecidableEq, Repr

/-! ## The presentation adapter (RiskDice.tsx lines 445–491) -/

/-- The body of the `for` loop over `i in 0..19`: the text, color and
highlight assigned to face `i` given the outcome and the pre-selected face
(`selectedFaceIndex`, `null` modelled as `none`). -/
def facePresentation (outcome : DiceOutcome) (sel : Option ℤ) (i : ℕ) :
    String × String × Bool :=
  if sel = some (i : ℤ) then
    match outcome with
    | .GREAT_MISFORTUNE => ("大凶", "#7f1d1d", true)
    | .GREAT_FORTUNE => ("大吉", "#ca8a04", true)
    | .ROLLING => ("??", "#475569", false)
    | .IDLE => ("??", "#475569", false)
  else ("大吉", "#1e293b", false)

/-- The three arrays `faceTexts`, `faceColors`, `faceHighlights` pushed by
the loop. -/
def presentationArrays (outcome : DiceOutcome) (sel : Option ℤ) :
    List String × List String × List Bool :=
  ((List.range 20).map fun i => (facePresentation outcome sel i).1,
   (List.range 20).map fun i => (facePresentation outcome sel i).2.1,
   (List.range 20).map fun i => (facePresentation outcome sel i).2.2)

/-! ## The controller state and the per-frame update (`useFrame`) -/

/-- The mutable state the `useFrame` callback reads and writes:
`groupRef.current.quaternion`, `angularVelocityRef`, `rotationCompleteRef`,
`verificationRetryCountRef` and the React state `detectedFaceIndex`. -/
structure ControllerState where
  quat : Quat
  angularVelocity : Vec3
  rotationComplete : Bool
  verificationRetryCount : ℕ
  detectedFaceIndex : Option ℤ

/-- Lines 388–405: the verification block run right after the snap (which
has just set `rotationComplete` to `true`); `actual` stands for the value
`detectFacingFace()` returned. -/
def verifyAfterSnap (selected actual : ℤ) (s : ControllerState) : ControllerState :=
  if actual = selected then
    { s with detectedFaceIndex := some selected, verificationRetryCount := 0 }
  else if s.verificationRetryCount + 1 < 3 then
    { s with verificationRetryCount := s.verificationRetryCount + 1,
             rotationComplete := false }
  else
    { s with detectedFaceIndex := some selected, verificationRetryCount := 0 }

/-- One failed-verification cycle: re-convergence ends in another snap
(setting `rotationComplete`) followed by the verification block. -/
def snapVerifyCycle (sel act : ℤ) (s : ControllerState) : ControllerState :=
  verifyAfterSnap sel act { s with rotationComplete := true }

/-- The roll-start effect (lines 261–282) for `isRolling = true`: resets
the completion flag and the retry counter and draws a fresh random angular
velocity `rv`. -/
def rollStartReset (rv : Vec3) (s : ControllerState) : ControllerState :=
  { s with rotationComplete := false, verificationRetryCount := 0,
           angularVelocity := rv }

/-- One invocation of the `useFrame` callback in the converging branch
(lines 359–407): `isRolling` is false and the designated face is `sel`.
The in-place `slerp` of line 376 is overwritten by the `copy` of line 382
whenever the pre-slerp angle is below the threshold, so the snap branch
ignores `q1`. -/
noncomputable def convergeFrame (delta : ℝ) (sel : ℤ) (s : ControllerState) :
    ControllerState :=
  if s.rotationComplete then { s with angularVelocity := 0 }
  else
    let targetQuat := calculateTargetQuaternion sel
    let angle := angleTo s.quat targetQuat
    let lerpFactor := min 1 (delta * 8)
    let q1 := slerp s.quat targetQuat lerpFactor
    if angle < 0.01 then
      verifyAfterSnap sel (detectFacingFace targetQuat)
        { s with quat := targetQuat, angularVelocity := 0, rotationComplete := true }
    else { s with quat := q1 }

/-- Lines 318–325: the rotation angle extracted from `diffQuat`. -/
noncomputable def spinAngleOf (dq : Quat) : ℝ :=
  Real.arccos (max (-1) (min 1 dq.w)) * 2

/-- Lines 320–325: the rotation axis, guarded — below the `0.0001` angle
threshold the default axis `(0, 0, 1)` is used instead of dividing by
`sin(angle / 2)`. -/
noncomputable def spinAxisOf (dq : Quat) : Vec3 :=
  if 0.0001 < spinAngleOf dq then
    Vec3.normalize ⟨dq.x / Real.sin (spinAngleOf dq / 2),
      dq.y / Real.sin (spinAngleOf dq / 2), dq.z / Real.sin (spinAngleOf dq / 2)⟩
  else ⟨0, 0, 1⟩

/-- Lines 306–340: the target angular velocity — guided toward the
designated face plus the stable random offset `roff` when the face is
known, the per-frame random vector `rvel` otherwise. -/
noncomputable def spinTargetAV (sel : Option ℤ) (roff rvel : Vec3)
    (s : ControllerState) : Vec3 :=
  match sel with
  | some fi =>
    let diffQuat := Quat.mul (Quat.invert (calculateTargetQuaternion fi)) s.quat
    (spinAngleOf diffQuat * 3.0) • spinAxisOf diffQuat + roff
  | none => rvel

/-- One invocation of the `useFrame` callback in the spinning branch
(lines 302–357): smooth the angular velocity toward its target, apply it
as an axis-angle rotation when its length clears the guard, then apply
friction. -/
noncomputable def spinFrame (delta : ℝ) (sel : Option ℤ) (roff rvel : Vec3)
    (s : ControllerState) : ControllerState :=
  let av1 := Vec3.lerp s.angularVelocity (spinTargetAV sel roff rvel s) 0.15
  let q1 :=
    if 0.0001 < Vec3.length av1 then
      Quat.mul (Quat.setFromAxisAngle (Vec3.normalize av1) (Vec3.length av1 * delta))
        s.quat
    else s.quat
  { s with quat := q1, angularVelocity := (0.96 : ℝ) • av1,
           rotationComplete := false }

/-! ## The face-count check (lines 410–421) -/

/-- Lines 411–417: the effect emits a `console.warn` diagnostic exactly
when the face count differs from 20 (otherwise it logs success). -/
def faceCountWarning (fs : List Face) : Bool := decide (fs.length ≠ 20)

/-- Lines 419–421: the component aborts rendering (returns `null`) exactly
when the face list is empty. -/
def rendersNothing (fs : List Face) : Bool := decide (fs.length = 0)

/-! ## Claim theorems -/

/-- C10: for every face index outside `0 .. fs.length - 1` (negative or too
large), and whenever the face list is empty, `calculateTargetQuaternion`
returns the identity quaternion instead of indexing out of bounds, so an
invalid designated face leaves the convergence target at the unrotated
orientation. -/
theorem C10_invalid_index_identity (fs : List Face) (n : ℤ)
    (h : fs = [] ∨ n < 0 ∨ (fs.length : ℤ) ≤ n) :
    calculateTargetQuaternionWith fs n = Quat.one := by
  rw [calculateTargetQuaternionWith, if_pos]
  rcases h with h | h | h
  · exact Or.inl (by rw [h]; rfl)
  · exact Or.inr (Or.inl h)
  · exact Or.inr (Or.inr h)

/-- Witness for C10 at the concrete out-of-range index `20` on the real
face list (and the component's `calculateTargetQuaternion` is exactly
`calculateTargetQuaternionWith faces`). -/
theorem C10_invalid_index_identity_witness :
    calculateTargetQuaternion 20 = Quat.one :=
  C10_invalid_index_identity faces 20 (Or.inr (Or.inr (by rw [faces_length]; norm_num)))

/-- C7 counterexample: a builder result of 19 faces (fewer than 20) does
not abort initialization — the component still renders (`rendersNothing`
is `false`); only the diagnostic warning fires. This refutes the claim
that fewer than 20 faces is fatal. -/
theorem C7_counterexample :
    (faces.take 19).length < 20 ∧ rendersNothing (faces.take 19) = false ∧
      faceCountWarning (faces.take 19) = true := by
  have hlen : (faces.take 19).length = 19 := by
    rw [List.length_take, faces_length]
    norm_num
  refine ⟨by rw [hlen]; norm_num, ?_, ?_⟩
  · rw [rendersNothing, hlen]
    decide
  · rw [faceCountWarning, hlen]
    decide

/-- C7 (amended): a face count other than 20 triggers the non-fatal
diagnostic warning, and initialization is aborted (the component renders
nothing) exactly when the builder yields zero faces — counts 1–19 are
warned about but still rendered. -/
theorem C7_facecount_behavior (fs : List Face) :
    (faceCountWarning fs = true ↔ fs.length ≠ 20) ∧
    (rendersNothing fs = true ↔ fs.length = 0) := by
  constructor
  · rw [faceCountWarning]
    exact decide_eq_true_iff
  · rw [rendersNothing]
    exact decide_eq_true_iff

lemma snapVerifyCycle_fail_low (sel act : ℤ) (s : ControllerState)
    (hact : act ≠ sel) (hlow : s.verificationRetryCount + 1 < 3) :
    snapVerifyCycle sel act s =
      { s with rotationComplete := false,
               verificationRetryCount := s.verificationRetryCount + 1 } := by
  rw [snapVerifyCycle, verifyAfterSnap]
  rw [if_neg hact, if_pos hlow]

lemma snapVerifyCycle_fail_high (sel act : ℤ) (s : ControllerState)
    (hact : act ≠ sel) (hhigh : ¬(s.verificationRetryCount + 1 < 3)) :
    snapVerifyCycle sel act s =
      { s with rotationComplete := true, detectedFaceIndex := some sel,
               verificationRetryCount := 0 } := by
  rw [snapVerifyCycle, verifyAfterSnap]
  rw [if_neg hact, if_neg hhigh]

/-- C4: starting from a reset retry counter, if the geometric check keeps
disagreeing with the designated face, the controller retries convergence —
each failed verification clears `rotationComplete` and bumps the bounded
counter — and on the third failure it gives up: `detectedFaceIndex` is
forced to the designated face, the counter resets to 0 and the rotation
stays complete, so verification never stalls the animation. A successful
verification or a roll start also resets the counter to 0. -/
theorem C4_retry_bound_and_force (sel act : ℤ) (s : ControllerState)
    (hact : act ≠ sel) (h0 : s.verificationRetryCount = 0) :
    ((snapVerifyCycle sel act s).rotationComplete = false ∧
     (snapVerifyCycle sel act s).verificationRetryCount = 1 ∧
     (snapVerifyCycle sel act s).detectedFaceIndex = s.detectedFaceIndex) ∧
    ((snapVerifyCycle sel act (snapVerifyCycle sel act (snapVerifyCycle sel act
        s))).detectedFaceIndex = some sel ∧
     (snapVerifyCycle sel act (snapVerifyCycle sel act (snapVerifyCycle sel act
        s))).verificationRetryCount = 0 ∧
     (snapVerifyCycle sel act (snapVerifyCycle sel act (snapVerifyCycle sel act
        s))).rotationComplete = true) ∧
    (∀ t : ControllerState, t.verificationRetryCount ≤ 2 →
      (snapVerifyCycle sel act t).verificationRetryCount ≤ 2) ∧
    (∀ t : ControllerState,
      (verifyAfterSnap sel sel t).verificationRetryCount = 0 ∧
      (verifyAfterSnap sel sel t).detectedFaceIndex = some sel ∧
      (verifyAfterSnap sel sel t).rotationComplete = t.rotationComplete) ∧
    (∀ (rv : Vec3) (t : ControllerState),
      (rollStartReset rv t).verificationRetryCount = 0 ∧
      (rollStartReset rv t).rotationComplete = false) := by
  have hs1 := snapVerifyCycle_fail_low sel act s hact (by omega)
  have hs2 := snapVerifyCycle_fail_low sel act
    { s with rotationComplete := false,
             verificationRetryCount := s.verificationRetryCount + 1 }
    hact (by simp [h0])
  have hs3 := snapVerifyCycle_fail_high sel act
    { s with rotationComplete := false,
             verificationRetryCount := s.verificationRetryCount + 1 + 1 }
    hact (by simp [h0])
  refine ⟨?_, ?_, ?_, ?_, ?_⟩
  · rw [hs1]
    exact ⟨rfl, by rw [h0], rfl⟩
  · rw [hs1, hs2, hs3]
    exact ⟨rfl, rfl, rfl⟩
  · intro t ht
    by_cases hlow : t.verificationRetryCount + 1 < 3
    · rw [snapVerifyCycle_fail_low sel act t hact hlow]
      show t.verificationRetryCount + 1 ≤ 2
      omega
    · rw [snapVerifyCycle_fail_high sel act t hact hlow]
      show (0 : ℕ) ≤ 2
      omega
  · intro t
    rw [verifyAfterSnap, if_pos rfl]
    exact ⟨rfl, rfl, rfl⟩
  · intro rv t
    exact ⟨rfl, rfl⟩

/-- Witness for C4: a concrete run with designated face `0`, a disagreeing
geometric answer `1`, and the initial controller state. -/
theorem C4_retry_bound_and_force_witness :
    (snapVerifyCycle 0 1 (snapVerifyCycle 0 1 (snapVerifyCycle 0 1
      ⟨Quat.one, 0, false, 0, none⟩))).detectedFaceIndex = some 0 :=
  (C4_retry_bound_and_force 0 1 ⟨Quat.one, 0, false, 0, none⟩
    (by decide) rfl).2.1.1

lemma presentation_getD (o : DiceOutcome) (sel : Option ℤ) (i : ℕ) (hi : i < 20) :
    (presentationArrays o sel).1.getD i "" = (facePresentation o sel i).1 ∧
    (presentationArrays o sel).2.1.getD i "" = (facePresentation o sel i).2.1 ∧
    (presentationArrays o sel).2.2.getD i false = (facePresentation o sel i).2.2 := by
  refine ⟨?_, ?_, ?_⟩ <;>
    · rw [presentationArrays, List.getD_eq_getElem _ _ (by simpa using hi)]
      simp [hi]

lemma highlight_imp_sel (o : DiceOutcome) (sel : Option ℤ) (i : ℕ)
    (h : (facePresentation o sel i).2.2 = true) : sel = some (i : ℤ) := by
  by_cases hs : sel = some (i : ℤ)
  · exact hs
  · rw [facePresentation.eq_def, if_neg hs] at h
    cases h

/-- C5: the presentation adapter is a pure function of the outcome and the
designated face: the three arrays have length 20; entry `i` is given by the
loop body `facePresentation`; every non-designated face gets the default
favorable appearance (`大吉`, `#1e293b`, not highlighted); the designated
face gets `大凶`/`#7f1d1d`/highlighted on `GREAT_MISFORTUNE`,
`大吉`/`#ca8a04`/highlighted on `GREAT_FORTUNE`, and the neutral
`??` placeholder, not highlighted, on `ROLLING` or `IDLE`; and at most one
face is ever highlighted. -/
theorem C5_presentation_adapter (o : DiceOutcome) (sel : Option ℤ) (i : ℕ)
    (hi : i < 20) :
    ((presentationArrays o sel).1.length = 20 ∧
     (presentationArrays o sel).2.1.length = 20 ∧
     (presentationArrays o sel).2.2.length = 20) ∧
    ((presentationArrays o sel).1.getD i "" = (facePresentation o sel i).1 ∧
     (presentationArrays o sel).2.1.getD i "" = (facePresentation o sel i).2.1 ∧
     (presentationArrays o sel).2.2.getD i false = (facePresentation o sel i).2.2) ∧
    (sel ≠ some (i : ℤ) →
      facePresentation o sel i = ("大吉", "#1e293b", false)) ∧
    (sel = some (i : ℤ) →
      (o = DiceOutcome.GREAT_MISFORTUNE →
        facePresentation o sel i = ("大凶", "#7f1d1d", true)) ∧
      (o = DiceOutcome.GREAT_FORTUNE →
        facePresentation o sel i = ("大吉", "#ca8a04", true)) ∧
      ((o = DiceOutcome.ROLLING ∨ o = DiceOutcome.IDLE) →
        facePresentation o sel i = ("??", "#475569", false))) ∧
    (∀ j k : ℕ, (facePresentation o sel j).2.2 = true →
      (facePresentation o sel k).2.2 = true → j = k) := by
  refine ⟨⟨by simp [presentationArrays], by simp [presentationArrays],
    by simp [presentationArrays]⟩, presentation_getD o sel i hi, ?_, ?_, ?_⟩
  · intro hne
    rw [facePresentation.eq_def, if_neg hne]
  · intro hsel
    refine ⟨?_, ?_, ?_⟩
    · intro ho; subst ho; rw [facePresentation, if_pos hsel]
    · intro ho; subst ho; rw [facePresentation, if_pos hsel]
    · intro ho
      rcases ho with ho | ho <;> subst ho <;> rw [facePresentation, if_pos hsel]
  · intro j k hj hk
    have h1 := highlight_imp_sel o sel j hj
    have h2 := highlight_imp_sel o sel k hk
    rw [h1] at h2
    exact_mod_cast Option.some_injective ℤ h2

/-- Witness for C5: outcome `GREAT_MISFORTUNE` with designated face `0` —
face `0`'s highlight entry in the rendered array is `true`. -/
theorem C5_presentation_adapter_witness :
    (presentationArrays DiceOutcome.GREAT_MISFORTUNE (some 0)).2.2.getD 0 false
      = true := by
  have h := C5_presentation_adapter DiceOutcome.GREAT_MISFORTUNE (some 0) 0
    (by norm_num)
  rw [h.2.1.2.2, (h.2.2.2.1 rfl).1 rfl]

/-- C1: for every face index `i` in `0..19`, setting the orientation to
`calculateTargetQuaternion(i)` and then running `detectFacingFace` returns
`i` — the two core operations round-trip. -/
theorem C1_roundtrip (i : Fin 20) :
    detectFacingFace (calculateTargetQuaternion ((i : ℕ) : ℤ)) = ((i : ℕ) : ℤ) :=
  detect_target i

/-- C3: for every orientation, `detectFacingFace` returns the index of the
face whose rotated normal has the largest dot product with the viewer
direction, and on ties the first such face in index order: every earlier
face has a strictly smaller dot. -/
theorem C3_locator_first_max (q : Quat) :
    ∃ r : Fin 20, detectFacingFace q = ((r : ℕ) : ℤ) ∧
      (∀ j : Fin 20, faceDot q (faceAt j) ≤ faceDot q (faceAt r)) ∧
      (∀ j : Fin 20, (j : ℕ) < (r : ℕ) →
        faceDot q (faceAt j) < faceDot q (faceAt r)) :=
  detectFacingFace_firstmax q

/-! ## The geometry facts behind C2 -/

lemma vertexTable_norm (k : Fin 12) :
    Vec3.dot (vertexTable k) (vertexTable k) = 4 := by
  rw [vertexTable_eq, dot_smul_left, dot_smul_right, dot_wTable]
  have hs : Real.sqrt omegaSq * Real.sqrt omegaSq = omegaSq :=
    Real.mul_self_sqrt omegaSq_pos.le
  have hspos := Real.sqrt_pos.mpr omegaSq_pos
  field_simp
  linear_combination (-4 : ℝ) * hs

lemma idxT_lt : ∀ i : Fin 20,
    (idxT i).1 < 12 ∧ (idxT i).2.1 < 12 ∧ (idxT i).2.2 < 12 := by decide

lemma faceVertex_eq (i : Fin 20) :
    (faceAt i).v1 = (2 / Real.sqrt omegaSq) • toVec3 (wlookup (idxT i).1) ∧
    (faceAt i).v2 = (2 / Real.sqrt omegaSq) • toVec3 (wlookup (idxT i).2.1) ∧
    (faceAt i).v3 = (2 / Real.sqrt omegaSq) • toVec3 (wlookup (idxT i).2.2) := by
  rw [faceAt_eq]
  exact ⟨vlookup_eq _, vlookup_eq _, vlookup_eq _⟩

lemma faceVertex_table (i : Fin 20) :
    ∃ a b c : Fin 12, (faceAt i).v1 = vertexTable a ∧
      (faceAt i).v2 = vertexTable b ∧ (faceAt i).v3 = vertexTable c := by
  obtain ⟨h1, h2, h3⟩ := idxT_lt i
  refine ⟨⟨(idxT i).1, h1⟩, ⟨(idxT i).2.1, h2⟩, ⟨(idxT i).2.2, h3⟩, ?_, ?_, ?_⟩ <;>
    · rw [faceAt_eq]
      show vlookup _ = _
      rw [vlookup]
      rw [dif_pos]

lemma faceNormal_outward (i : Fin 20) :
    0 < Vec3.dot (faceAt i).normal
      ((1 / 3 : ℝ) • ((faceAt i).v1 + (faceAt i).v2 + (faceAt i).v3)) := by
  obtain ⟨hv1, hv2, hv3⟩ := faceVertex_eq i
  rw [faceNormal_eq, hv1, hv2, hv3]
  rw [show (2 / Real.sqrt omegaSq) • toVec3 (wlookup (idxT i).1)
      + (2 / Real.sqrt omegaSq) • toVec3 (wlookup (idxT i).2.1)
      + (2 / Real.sqrt omegaSq) • toVec3 (wlookup (idxT i).2.2)
      = (2 / Real.sqrt omegaSq) • toVec3 (sumW (idxT i)) by
    rw [sumW, toVec3_add, toVec3_add, smul_add_vec, smul_add_vec]
    ext <;> simp <;> ring]
  rw [dot_smul_left, dot_smul_right, dot_smul_right, dot_toVec3]
  have hout := (Z5.blt_iff Z5.zero _).mp (shadow_outward i)
  rw [Z5.toReal_zero] at hout
  have h1 : (0 : ℝ) < 1 / Real.sqrt 192 := by
    have := sqrt192_pos; positivity
  have h2 : (0 : ℝ) < 2 / Real.sqrt omegaSq := by
    have := Real.sqrt_pos.mpr omegaSq_pos; positivity
  have h3 : (0 : ℝ) < 1 / 3 := by norm_num
  exact mul_pos h1 (mul_pos h3 (mul_pos h2 hout))

lemma face_edge_sq (i : Fin 20) :
    Vec3.dot ((faceAt i).v2 - (faceAt i).v1) ((faceAt i).v2 - (faceAt i).v1)
      = (2 / Real.sqrt omegaSq) ^ 2 * 16 ∧
    Vec3.dot ((faceAt i).v3 - (faceAt i).v2) ((faceAt i).v3 - (faceAt i).v2)
      = (2 / Real.sqrt omegaSq) ^ 2 * 16 ∧
    Vec3.dot ((faceAt i).v1 - (faceAt i).v3) ((faceAt i).v1 - (faceAt i).v3)
      = (2 / Real.sqrt omegaSq) ^ 2 * 16 := by
  obtain ⟨hv1, hv2, hv3⟩ := faceVertex_eq i
  obtain ⟨he1, he2, he3⟩ := shadow_edges i
  refine ⟨?_, ?_, ?_⟩
  · rw [hv1, hv2, ← smul_sub_vec, ← toVec3_sub, dot_smul_left, dot_smul_right,
      dot_toVec3, he1]
    simp [Z5.toReal]
    ring
  · rw [hv2, hv3, ← smul_sub_vec, ← toVec3_sub, dot_smul_left, dot_smul_right,
      dot_toVec3]
    rw [show (wlookup (idxT i).2.2).sub (wlookup (idxT i).2.1)
        = ((wlookup (idxT i).2.2).sub (wlookup (idxT i).2.1)) from rfl, he2]
    simp [Z5.toReal]
    ring
  · rw [hv3, hv1, ← smul_sub_vec, ← toVec3_sub, dot_smul_left, dot_smul_right,
      dot_toVec3, he3]
    simp [Z5.toReal]
    ring

/-- The stored normal is literally the sign-corrected normalized cross
product of the face's first two edges, tested against the face center. -/
lemma mkFace_normal_def (t : ℕ × ℕ × ℕ) :
    (mkFace t).normal =
      (if Vec3.dot (Vec3.normalize (Vec3.cross ((mkFace t).v2 - (mkFace t).v1)
            ((mkFace t).v3 - (mkFace t).v1)))
          ((1 / 3 : ℝ) • ((mkFace t).v1 + (mkFace t).v2 + (mkFace t).v3)) < 0
       then -(Vec3.normalize (Vec3.cross ((mkFace t).v2 - (mkFace t).v1)
            ((mkFace t).v3 - (mkFace t).v1)))
       else Vec3.normalize (Vec3.cross ((mkFace t).v2 - (mkFace t).v1)
            ((mkFace t).v3 - (mkFace t).v1))) := rfl

lemma faceVertex_norm (i : Fin 20) :
    Vec3.dot (faceAt i).v1 (faceAt i).v1 = 4 ∧
    Vec3.dot (faceAt i).v2 (faceAt i).v2 = 4 ∧
    Vec3.dot (faceAt i).v3 (faceAt i).v3 = 4 := by
  obtain ⟨a, b, c, h1, h2, h3⟩ := faceVertex_table i
  rw [h1, h2, h3]
  exact ⟨vertexTable_norm a, vertexTable_norm b, vertexTable_norm c⟩

lemma length_of_dot_four (v : Vec3) (h : Vec3.dot v v = 4) : Vec3.length v = radius := by
  rw [Vec3.length, h, radius, show (4 : ℝ) = 2 ^ 2 by norm_num,
    Real.sqrt_sq (by norm_num)]

lemma dot_sub_swap (u v : Vec3) :
    Vec3.dot (u - v) (u - v) = Vec3.dot (v - u) (v - u) := by
  simp [Vec3.dot]; ring

lemma face_dists (i : Fin 20) :
    Vec3.distanceTo (faceAt i).v1 (faceAt i).v2
      = Real.sqrt ((2 / Real.sqrt omegaSq) ^ 2 * 16) ∧
    Vec3.distanceTo (faceAt i).v2 (faceAt i).v3
      = Real.sqrt ((2 / Real.sqrt omegaSq) ^ 2 * 16) ∧
    Vec3.distanceTo (faceAt i).v3 (faceAt i).v1
      = Real.sqrt ((2 / Real.sqrt omegaSq) ^ 2 * 16) := by
  obtain ⟨he1, he2, he3⟩ := face_edge_sq i
  refine ⟨?_, ?_, ?_⟩
  · rw [Vec3.distanceTo, Vec3.length, dot_sub_swap, he1]
  · rw [Vec3.distanceTo, Vec3.length, dot_sub_swap, he2]
  · rw [Vec3.distanceTo, Vec3.length, dot_sub_swap, he3]

/-- C2: `createStandardIcosahedron` returns exactly 20 faces; every face is
built from the 12 golden-ratio vertices, each scaled to the fixed
circumradius `radius = 2`; the stored normal is the normalized cross
product of the first two edges, negated exactly when that cross product
points toward the centroid (negative dot with the face center); every
normal is unit length and points outward (positive dot with the face
center); and all edges of all faces have equal length. -/
theorem C2_builder_contract (i : Fin 20) :
    faces.length = 20 ∧
    (∃ a b c : Fin 12, (faceAt i).v1 = vertexTable a ∧
      (faceAt i).v2 = vertexTable b ∧ (faceAt i).v3 = vertexTable c) ∧
    (Vec3.length (faceAt i).v1 = radius ∧ Vec3.length (faceAt i).v2 = radius ∧
      Vec3.length (faceAt i).v3 = radius) ∧
    ((faceAt i).normal =
      if Vec3.dot (Vec3.normalize (Vec3.cross ((faceAt i).v2 - (faceAt i).v1)
            ((faceAt i).v3 - (faceAt i).v1)))
          ((1 / 3 : ℝ) • ((faceAt i).v1 + (faceAt i).v2 + (faceAt i).v3)) < 0
       then -(Vec3.normalize (Vec3.cross ((faceAt i).v2 - (faceAt i).v1)
            ((faceAt i).v3 - (faceAt i).v1)))
       else Vec3.normalize (Vec3.cross ((faceAt i).v2 - (faceAt i).v1)
            ((faceAt i).v3 - (faceAt i).v1))) ∧
    (Vec3.dot (faceAt i).normal (faceAt i).normal = 1 ∧
      Vec3.length (faceAt i).normal = 1) ∧
    0 < Vec3.dot (faceAt i).normal
      ((1 / 3 : ℝ) • ((faceAt i).v1 + (faceAt i).v2 + (faceAt i).v3)) ∧
    (Vec3.distanceTo (faceAt i).v1 (faceAt i).v2
        = Vec3.distanceTo (faceAt i).v2 (faceAt i).v3 ∧
     Vec3.distanceTo (faceAt i).v2 (faceAt i).v3
        = Vec3.distanceTo (faceAt i).v3 (faceAt i).v1 ∧
     ∀ j : Fin 20, Vec3.distanceTo (faceAt i).v1 (faceAt i).v2
        = Vec3.distanceTo (faceAt j).v1 (faceAt j).v2) := by
  obtain ⟨hn1, hn2, hn3⟩ := faceVertex_norm i
  obtain ⟨hd1, hd2, hd3⟩ := face_dists i
  refine ⟨faces_length, faceVertex_table i,
    ⟨length_of_dot_four _ hn1, length_of_dot_four _ hn2, length_of_dot_four _ hn3⟩,
    ?_, ⟨faceNormal_unit i, ?_⟩, faceNormal_outward i, ?_, ?_, ?_⟩
  · conv_lhs => rw [faceAt_eq, mkFace_normal_def]
    rw [faceAt_eq]
  · rw [Vec3.length, faceNormal_unit i, Real.sqrt_one]
  · rw [hd1, hd2]
  · rw [hd2, hd3]
  · intro j
    rw [hd1, (face_dists j).1]

/-- C9: the spinning branch's numerical guards. When the extracted rotation
angle is at or below the `0.0001` guard, the axis is the default `(0,0,1)`
instead of a division by a vanishing `sin(angle/2)`; and when the smoothed
angular velocity's length is at or below the guard, no rotation at all is
applied to the orientation. Both sub-steps are total functions of the
state, so no numerical edge case can escalate. -/
theorem C9_spin_guards :
    (∀ dq : Quat, spinAngleOf dq ≤ 0.0001 → spinAxisOf dq = ⟨0, 0, 1⟩) ∧
    (∀ (delta : ℝ) (sel : Option ℤ) (roff rvel : Vec3) (s : ControllerState),
      Vec3.length (Vec3.lerp s.angularVelocity (spinTargetAV sel roff rvel s) 0.15)
          ≤ 0.0001 →
      (spinFrame delta sel roff rvel s).quat = s.quat) := by
  constructor
  · intro dq h
    rw [spinAxisOf, if_neg (not_lt.mpr h)]
  · intro delta sel roff rvel s h
    show (if 0.0001 < Vec3.length
          (Vec3.lerp s.angularVelocity (spinTargetAV sel roff rvel s) 0.15)
        then Quat.mul (Quat.setFromAxisAngle
          (Vec3.normalize (Vec3.lerp s.angularVelocity
            (spinTargetAV sel roff rvel s) 0.15))
          (Vec3.length (Vec3.lerp s.angularVelocity
            (spinTargetAV sel roff rvel s) 0.15) * delta)) s.quat
        else s.quat) = s.quat
    rw [if_neg (not_lt.mpr h)]

lemma angleTo_self_unit (q : Quat) (h : Quat.dotQ q q = 1) : angleTo q q = 0 := by
  rw [angleTo, h]
  rw [show clamp 1 (-1) 1 = 1 by rw [clamp]; norm_num]
  rw [abs_one, Real.arccos_one, mul_zero]

/-- C8: in the converging branch, once the angular distance to the target
falls below the snap threshold `0.01`, the orientation is set exactly equal
to the target quaternion, the angular velocity is zeroed, and (because the
geometric verification of the snapped orientation succeeds, by the
round-trip property) the rotation is marked complete — after which any
further converging frame leaves the orientation unchanged. -/
theorem C8_snap_exact (delta : ℝ) (sel : ℤ) (s : ControllerState)
    (hsel0 : 0 ≤ sel) (hsel20 : sel < 20)
    (hcomplete : s.rotationComplete = false)
    (hangle : angleTo s.quat (calculateTargetQuaternion sel) < 0.01) :
    (convergeFrame delta sel s).quat = calculateTargetQuaternion sel ∧
    (convergeFrame delta sel s).angularVelocity = 0 ∧
    (convergeFrame delta sel s).rotationComplete = true ∧
    (∀ d2 : ℝ, (convergeFrame d2 sel (convergeFrame delta sel s)).quat
        = (convergeFrame delta sel s).quat ∧
      (convergeFrame d2 sel (convergeFrame delta sel s)).angularVelocity = 0) := by
  have hdet : detectFacingFace (calculateTargetQuaternion sel) = sel := by
    have hlt : sel.toNat < 20 := by omega
    have hnat : ((sel.toNat : ℕ) : ℤ) = sel := Int.toNat_of_nonneg hsel0
    have h := detect_target ⟨sel.toNat, hlt⟩
    rw [show (((⟨sel.toNat, hlt⟩ : Fin 20) : ℕ) : ℤ) = sel from hnat] at h
    exact h
  have hstep : convergeFrame delta sel s
      = verifyAfterSnap sel sel
          { s with quat := calculateTargetQuaternion sel, angularVelocity := 0,
                   rotationComplete := true } := by
    rw [convergeFrame, if_neg (by simp [hcomplete])]
    show (if angleTo s.quat (calculateTargetQuaternion sel) < 0.01
        then verifyAfterSnap sel (detectFacingFace (calculateTargetQuaternion sel))
          { s with quat := calculateTargetQuaternion sel, angularVelocity := 0,
                   rotationComplete := true }
        else { s with quat :=
          (slerp s.quat (calculateTargetQuaternion sel) (min 1 (delta * 8))) }) = _
    rw [if_pos hangle, hdet]
  have hv : verifyAfterSnap sel sel
      { s with quat := calculateTargetQuaternion sel, angularVelocity := 0,
               rotationComplete := true }
      = { s with quat := calculateTargetQuaternion sel, angularVelocity := 0,
                 rotationComplete := true, detectedFaceIndex := some sel,
                 verificationRetryCount := 0 } := by
    rw [verifyAfterSnap, if_pos rfl]
  rw [hstep, hv]
  refine ⟨rfl, rfl, rfl, ?_⟩
  intro d2
  have hrun : ∀ t : ControllerState, t.rotationComplete = true →
      convergeFrame d2 sel t = { t with angularVelocity := 0 } := by
    intro t ht
    rw [convergeFrame, if_pos (by simp [ht])]
  rw [hrun _ rfl]
  exact ⟨rfl, rfl⟩

/-- Witness for C8: designated face `0`, the state already at the target
orientation (angular distance `0 < 0.01`). -/
theorem C8_snap_exact_witness :
    (convergeFrame 1 0 ⟨calculateTargetQuaternion 0, 0, false, 0, none⟩).quat
      = calculateTargetQuaternion 0 :=
  (C8_snap_exact 1 0 ⟨calculateTargetQuaternion 0, 0, false, 0, none⟩
    (by norm_num) (by norm_num) rfl (by
      show angleTo (calculateTargetQuaternion 0) (calculateTargetQuaternion 0) < 0.01
      have hu : Quat.dotQ (calculateTargetQuaternion 0) (calculateTargetQuaternion 0)
          = 1 := by
        have := targetQuat_unit ⟨0, by norm_num⟩
        simpa using this
      rw [angleTo_self_unit _ hu]
      norm_num)).1

/-! ## Slerp contracts the angular distance (toward C6) -/

lemma dotQ_abs_le (p q : Quat) (hp : Quat.dotQ p p = 1) (hq : Quat.dotQ q q = 1) :
    |Quat.dotQ p q| ≤ 1 := by
  simp only [Quat.dotQ] at hp hq ⊢
  rw [abs_le]
  constructor
  · nlinarith [sq_nonneg (p.x + q.x), sq_nonneg (p.y + q.y), sq_nonneg (p.z + q.z),
      sq_nonneg (p.w + q.w)]
  · nlinarith [sq_nonneg (p.x - q.x), sq_nonneg (p.y - q.y), sq_nonneg (p.z - q.z),
      sq_nonneg (p.w - q.w)]

lemma clamp_id (v : ℝ) (h1 : -1 ≤ v) (h2 : v ≤ 1) : clamp v (-1) 1 = v := by
  rw [clamp, min_eq_right h2, max_eq_right h1]

lemma angleTo_eq_arccos (p q : Quat) (h : |Quat.dotQ p q| ≤ 1) :
    angleTo p q = 2 * Real.arccos |Quat.dotQ p q| := by
  rw [angleTo, clamp_id _ (abs_le.mp h).1 (abs_le.mp h).2]

set_option maxHeartbeats 1600000 in
/-- One three.js `slerp` step at `0 < t < 1`, between unit quaternions at
angular distance at least the snap threshold, lands at the exact fraction
`1 - t` of the angular distance and stays unit length. -/
lemma slerp_contract (qa qb : Quat) (t : ℝ) (ht0 : 0 < t) (ht1 : t < 1)
    (ha : Quat.dotQ qa qa = 1) (hb : Quat.dotQ qb qb = 1)
    (hangle : 0.01 ≤ angleTo qa qb) :
    angleTo (slerp qa qb t) qb = (1 - t) * angleTo qa qb ∧
    Quat.dotQ (slerp qa qb t) (slerp qa qb t) = 1 := by
  have habs : |Quat.dotQ qa qb| ≤ 1 := dotQ_abs_le qa qb ha hb
  have hangle_eq : angleTo qa qb = 2 * Real.arccos |Quat.dotQ qa qb| :=
    angleTo_eq_arccos qa qb habs
  set d := Quat.dotQ qa qb with hd
  set c := |d| with hc
  have hc0 : 0 ≤ c := abs_nonneg d
  have hc1 : c ≤ 1 := habs
  have harc : 0.005 ≤ Real.arccos c := by
    rw [hangle_eq] at hangle; linarith
  have hclt : c < 1 := by
    rcases lt_or_eq_of_le hc1 with h | h
    · exact h
    · rw [h, Real.arccos_one] at harc; norm_num at harc
  have hccpos : 0 < 1 - c * c := by nlinarith
  have hcos_bound : c ≤ Real.cos 0.005 := by
    have h1 : Real.cos (Real.arccos c) ≤ Real.cos 0.005 :=
      Real.cos_le_cos_of_nonneg_of_le_pi (by norm_num) (Real.arccos_le_pi c) harc
    rwa [Real.cos_arccos (by linarith) hc1] at h1
  have hsin_lb : (0.00499 : ℝ) ≤ Real.sin 0.005 := by
    have h2 := Real.sin_gt_sub_cube (by norm_num : (0 : ℝ) < 0.005)
      (by norm_num : (0.005 : ℝ) ≤ 1)
    nlinarith [h2]
  have heps : ¬(1 - c * c ≤ jsEpsilon) := by
    push_neg
    have hpyth := Real.sin_sq_add_cos_sq (0.005 : ℝ)
    have hcosnn : (0 : ℝ) ≤ Real.cos 0.005 := le_trans hc0 hcos_bound
    have hcc : c * c ≤ Real.cos 0.005 * Real.cos 0.005 :=
      mul_le_mul hcos_bound hcos_bound hc0 hcosnn
    have heps_val : jsEpsilon < 0.00499 * 0.00499 := by
      rw [jsEpsilon]; norm_num
    nlinarith [hpyth, hsin_lb, hcc, heps_val]
  set sgn : ℝ := if d < 0 then -1 else 1 with hsgn
  set qs : Quat := if d < 0 then ⟨-qb.x, -qb.y, -qb.z, -qb.w⟩ else qb with hqs
  have hsgn_sq : sgn * sgn = 1 := by
    rw [hsgn]; split_ifs <;> norm_num
  have hcos_fold : (if d < 0 then -d else d) = c := by
    rw [hc]
    rcases lt_or_le d 0 with h | h
    · rw [if_pos h, abs_of_neg h]
    · rw [if_neg (not_lt.mpr h), abs_of_nonneg h]
  have hqsx : qs.x = sgn * qb.x := by
    rw [hqs, hsgn]; split_ifs <;> simp
  have hqsy : qs.y = sgn * qb.y := by
    rw [hqs, hsgn]; split_ifs <;> simp
  have hqsz : qs.z = sgn * qb.z := by
    rw [hqs, hsgn]; split_ifs <;> simp
  have hqsw : qs.w = sgn * qb.w := by
    rw [hqs, hsgn]; split_ifs <;> simp
  have hdsc : d = sgn * c := by
    rw [hsgn, hc]
    rcases lt_or_le d 0 with h | h
    · rw [if_pos h, abs_of_neg h]; ring
    · rw [if_neg (not_lt.mpr h), abs_of_nonneg h]; ring
  have hnot1c : ¬(1 ≤ c) := not_le.mpr hclt
  set s2 := Real.sqrt (1 - c * c) with hs2
  have hs2pos : 0 < s2 := Real.sqrt_pos.mpr hccpos
  have hs2sq : s2 * s2 = 1 - c * c := Real.mul_self_sqrt hccpos.le
  set hft := jsAtan2 s2 c with hhft
  have hft_arccos : hft = Real.arccos c := by
    rcases lt_or_eq_of_le hc0 with hcpos | hczero
    · rw [hhft, jsAtan2, if_pos hcpos, Real.arccos_eq_arctan hcpos]
      congr 2
      rw [hs2]
      congr 1
      ring
    · rw [hhft, jsAtan2, ← hczero]
      rw [if_neg (lt_irrefl 0), if_neg (lt_irrefl 0), if_pos hs2pos,
        Real.arccos_zero]
  have hsinh : Real.sin hft = s2 := by
    rw [hft_arccos, Real.sin_arccos, hs2]
    congr 1
    ring
  have hcosh : Real.cos hft = c := by
    rw [hft_arccos, Real.cos_arccos (by linarith) hc1]
  have hh0 : 0 < hft := by
    rw [hft_arccos]; exact Real.arccos_pos.mpr hclt
  have hhpi2 : hft ≤ Real.pi / 2 := by
    rw [hft_arccos]; exact Real.arccos_le_pi_div_two.mpr hc0
  have hslerp : slerp qa qb t = ⟨
      qa.x * (Real.sin ((1 - t) * hft) / s2) + qs.x * (Real.sin (t * hft) / s2),
      qa.y * (Real.sin ((1 - t) * hft) / s2) + qs.y * (Real.sin (t * hft) / s2),
      qa.z * (Real.sin ((1 - t) * hft) / s2) + qs.z * (Real.sin (t * hft) / s2),
      qa.w * (Real.sin ((1 - t) * hft) / s2) + qs.w * (Real.sin (t * hft) / s2)⟩ := by
    simp only [slerp]
    rw [if_neg ht0.ne', if_neg (ne_of_lt ht1)]
    simp only [← hd, hcos_fold, ← hqs, ← hs2, ← hhft]
    rw [if_neg hnot1c, if_neg heps]
  have hab : qa.x * qb.x + qa.y * qb.y + qa.z * qb.z + qa.w * qb.w = sgn * c := by
    have h1 : Quat.dotQ qa qb = sgn * c := by rw [← hd, hdsc]
    exact h1
  have hbb : qb.x * qb.x + qb.y * qb.y + qb.z * qb.z + qb.w * qb.w = 1 := hb
  have haa : qa.x * qa.x + qa.y * qa.y + qa.z * qa.z + qa.w * qa.w = 1 := ha
  have htrig : Real.sin (t * hft)
      = s2 * Real.cos ((1 - t) * hft) - c * Real.sin ((1 - t) * hft) := by
    rw [show t * hft = hft - (1 - t) * hft by ring, Real.sin_sub, hsinh, hcosh]
  have hdq : Quat.dotQ (slerp qa qb t) qb = sgn * Real.cos ((1 - t) * hft) := by
    rw [hslerp]
    simp only [Quat.dotQ, hqsx, hqsy, hqsz, hqsw]
    rw [htrig]
    field_simp
    linear_combination Real.sin ((1 - t) * hft) * hab
      + (sgn * (s2 * Real.cos ((1 - t) * hft) - c * Real.sin ((1 - t) * hft))) * hbb
  have htnn : 0 ≤ (1 - t) * hft := by
    have : 0 ≤ 1 - t := by linarith
    positivity
  have htle : (1 - t) * hft ≤ hft := by
    have h9 : (1 - t) * hft = hft - t * hft := by ring
    rw [h9]
    linarith [mul_nonneg ht0.le hh0.le]
  have hcosA_nn : 0 ≤ Real.cos ((1 - t) * hft) := by
    apply Real.cos_nonneg_of_mem_Icc
    constructor
    · have := Real.pi_pos
      linarith
    · linarith
  have hcosA_le1 : Real.cos ((1 - t) * hft) ≤ 1 := Real.cos_le_one _
  have habs2 : |Quat.dotQ (slerp qa qb t) qb| = Real.cos ((1 - t) * hft) := by
    rw [hdq, abs_mul]
    rw [show |sgn| = 1 by rw [hsgn]; split_ifs <;> norm_num]
    rw [one_mul, abs_of_nonneg hcosA_nn]
  have hftpi : hft ≤ Real.pi := by
    have := Real.pi_pos
    linarith
  constructor
  · rw [angleTo_eq_arccos _ _ (habs2.trans_le hcosA_le1), habs2,
      Real.arccos_cos htnn (le_trans htle hftpi)]
    rw [hangle_eq, ← hft_arccos]
    ring
  · rw [hslerp]
    simp only [Quat.dotQ, hqsx, hqsy, hqsz, hqsw]
    rw [htrig]
    have hpyth := Real.sin_sq_add_cos_sq ((1 - t) * hft)
    field_simp
    linear_combination (Real.sin ((1 - t) * hft)) ^ 2 * haa
      + (2 * Real.sin ((1 - t) * hft) * sgn
          * (s2 * Real.cos ((1 - t) * hft) - c * Real.sin ((1 - t) * hft))) * hab
      + (sgn * (s2 * Real.cos ((1 - t) * hft)
          - c * Real.sin ((1 - t) * hft))) ^ 2 * hbb
      + (2 * Real.sin ((1 - t) * hft) * c
            * (s2 * Real.cos ((1 - t) * hft) - c * Real.sin ((1 - t) * hft))
          + (s2 * Real.cos ((1 - t) * hft)
            - c * Real.sin ((1 - t) * hft)) ^ 2) * hsgn_sq
      + (s2 * s2) * hpyth
      + (-(Real.sin ((1 - t) * hft)) ^ 2) * hs2sq

lemma angleTo_le_pi (p q : Quat) : angleTo p q ≤ Real.pi := by
  rw [angleTo]
  have h := Real.arccos_le_pi_div_two.mpr (abs_nonneg (clamp (Quat.dotQ p q) (-1) 1))
  linarith

lemma targetQuat_unit_int (sel : ℤ) (h0 : 0 ≤ sel) (h20 : sel < 20) :
    Quat.dotQ (calculateTargetQuaternion sel) (calculateTargetQuaternion sel) = 1 := by
  have hlt : sel.toNat < 20 := by omega
  have hnat : ((sel.toNat : ℕ) : ℤ) = sel := Int.toNat_of_nonneg h0
  have h := targetQuat_unit ⟨sel.toNat, hlt⟩
  rw [show (((⟨sel.toNat, hlt⟩ : Fin 20) : ℕ) : ℤ) = sel from hnat] at h
  exact h

lemma detect_target_int (sel : ℤ) (h0 : 0 ≤ sel) (h20 : sel < 20) :
    detectFacingFace (calculateTargetQuaternion sel) = sel := by
  have hlt : sel.toNat < 20 := by omega
  have hnat : ((sel.toNat : ℕ) : ℤ) = sel := Int.toNat_of_nonneg h0
  have h := detect_target ⟨sel.toNat, hlt⟩
  rw [show (((⟨sel.toNat, hlt⟩ : Fin 20) : ℕ) : ℤ) = sel from hnat] at h
  exact h

/-- A converging frame on an already-completed state only zeroes the
angular velocity. -/
lemma convergeFrame_complete (delta : ℝ) (sel : ℤ) (t : ControllerState)
    (ht : t.rotationComplete = true) :
    convergeFrame delta sel t = { t with angularVelocity := 0 } := by
  rw [convergeFrame, if_pos (by simp [ht])]

/-- A converging frame below the snap threshold copies the target exactly,
zeroes the velocity, marks completion, and records the verified face. -/
lemma convergeFrame_snap (delta : ℝ) (sel : ℤ) (s : ControllerState)
    (h0 : 0 ≤ sel) (h20 : sel < 20) (hcomplete : s.rotationComplete = false)
    (hangle : angleTo s.quat (calculateTargetQuaternion sel) < 0.01) :
    convergeFrame delta sel s
      = { s with quat := calculateTargetQuaternion sel, angularVelocity := 0,
                 rotationComplete := true, detectedFaceIndex := some sel,
                 verificationRetryCount := 0 } := by
  rw [convergeFrame, if_neg (by simp [hcomplete])]
  show (if angleTo s.quat (calculateTargetQuaternion sel) < 0.01
      then verifyAfterSnap sel (detectFacingFace (calculateTargetQuaternion sel))
        { s with quat := calculateTargetQuaternion sel, angularVelocity := 0,
                 rotationComplete := true }
      else { s with quat :=
        (slerp s.quat (calculateTargetQuaternion sel) (min 1 (delta * 8))) }) = _
  rw [if_pos hangle, detect_target_int sel h0 h20, verifyAfterSnap, if_pos rfl]

/-- A converging frame above the snap threshold slerps and contracts the
angle by the exact factor `13/15` at the fixed timestep `1/60`. -/
lemma convergeFrame_contract (sel : ℤ) (s : ControllerState)
    (hq : Quat.dotQ s.quat s.quat = 1)
    (htunit : Quat.dotQ (calculateTargetQuaternion sel)
      (calculateTargetQuaternion sel) = 1)
    (hcomplete : s.rotationComplete = false)
    (hangle : 0.01 ≤ angleTo s.quat (calculateTargetQuaternion sel)) :
    (convergeFrame (1 / 60) sel s).rotationComplete = false ∧
    Quat.dotQ (convergeFrame (1 / 60) sel s).quat
      (convergeFrame (1 / 60) sel s).quat = 1 ∧
    angleTo (convergeFrame (1 / 60) sel s).quat (calculateTargetQuaternion sel)
      = (13 / 15) * angleTo s.quat (calculateTargetQuaternion sel) := by
  have hstep : convergeFrame (1 / 60) sel s
      = { s with quat :=
          (slerp s.quat (calculateTargetQuaternion sel) (min 1 ((1 / 60 : ℝ) * 8))) } := by
    rw [convergeFrame, if_neg (by simp [hcomplete])]
    show (if angleTo s.quat (calculateTargetQuaternion sel) < 0.01
        then verifyAfterSnap sel (detectFacingFace (calculateTargetQuaternion sel))
          { s with quat := calculateTargetQuaternion sel, angularVelocity := 0,
                   rotationComplete := true }
        else { s with quat :=
          (slerp s.quat (calculateTargetQuaternion sel) (min 1 ((1 / 60 : ℝ) * 8))) }) = _
    rw [if_neg (not_lt.mpr hangle)]
  have hmin : min 1 ((1 / 60 : ℝ) * 8) = 2 / 15 := by
    rw [show (1 / 60 : ℝ) * 8 = 2 / 15 by norm_num]
    exact min_eq_right (by norm_num)
  obtain ⟨hang, hunit⟩ := slerp_contract s.quat (calculateTargetQuaternion sel)
    (2 / 15) (by norm_num) (by norm_num) hq htunit hangle
  rw [hstep, hmin]
  refine ⟨hcomplete, hunit, ?_⟩
  rw [hang]
  norm_num

/-- Iterating the converging frame from a unit orientation: by frame `n`
the state is either already snapped to the target, or still converging with
the angle geometrically contracted below `(13/15)ⁿ · π`. -/
lemma converge_iter (sel : ℤ) (h0 : 0 ≤ sel) (h20 : sel < 20)
    (s : ControllerState) (hq : Quat.dotQ s.quat s.quat = 1)
    (hcomplete : s.rotationComplete = false) : ∀ n : ℕ,
    (((convergeFrame (1 / 60) sel)^[n] s).rotationComplete = true ∧
      ((convergeFrame (1 / 60) sel)^[n] s).quat = calculateTargetQuaternion sel) ∨
    (((convergeFrame (1 / 60) sel)^[n] s).rotationComplete = false ∧
      Quat.dotQ ((convergeFrame (1 / 60) sel)^[n] s).quat
        ((convergeFrame (1 / 60) sel)^[n] s).quat = 1 ∧
      angleTo ((convergeFrame (1 / 60) sel)^[n] s).quat
        (calculateTargetQuaternion sel) ≤ (13 / 15) ^ n * Real.pi) := by
  have htunit := targetQuat_unit_int sel h0 h20
  intro n
  induction n with
  | zero =>
    right
    refine ⟨hcomplete, hq, ?_⟩
    simpa using angleTo_le_pi s.quat (calculateTargetQuaternion sel)
  | succ n ih =>
    rw [Function.iterate_succ_apply']
    rcases ih with ⟨hcpl, hquat⟩ | ⟨hncpl, hq', hang⟩
    · left
      rw [convergeFrame_complete _ _ _ hcpl]
      exact ⟨hcpl, hquat⟩
    · by_cases hsnap : angleTo ((convergeFrame (1 / 60) sel)^[n] s).quat
          (calculateTargetQuaternion sel) < 0.01
      · left
        rw [convergeFrame_snap _ _ _ h0 h20 hncpl hsnap]
        exact ⟨rfl, rfl⟩
      · right
        obtain ⟨hc1, hc2, hc3⟩ := convergeFrame_contract sel _ hq' htunit hncpl
          (not_lt.mp hsnap)
        refine ⟨hc1, hc2, ?_⟩
        rw [hc3, pow_succ]
        have hpi := Real.pi_pos
        nlinarith [hang]

/-- C6: from any unit initial orientation and any valid designated face,
the converging step at the fixed timestep `1/60` reaches the snap
threshold and terminates within 300 frames: by some frame `n ≤ 300` the
rotation is complete and the orientation equals the target exactly (zero
angular distance), and every later frame leaves the orientation there. -/
theorem C6_convergence_bounded (sel : ℤ) (q0 : Quat) (v0 : Vec3) (r0 : ℕ)
    (d0 : Option ℤ) (h0 : 0 ≤ sel) (h20 : sel < 20)
    (hq : Quat.dotQ q0 q0 = 1) :
    ∃ n ≤ 300,
      ((convergeFrame (1 / 60) sel)^[n]
        ⟨q0, v0, false, r0, d0⟩).rotationComplete = true ∧
      ((convergeFrame (1 / 60) sel)^[n] ⟨q0, v0, false, r0, d0⟩).quat
        = calculateTargetQuaternion sel ∧
      angleTo (((convergeFrame (1 / 60) sel)^[n] ⟨q0, v0, false, r0, d0⟩).quat)
        (calculateTargetQuaternion sel) = 0 ∧
      ∀ m, n ≤ m →
        ((convergeFrame (1 / 60) sel)^[m] ⟨q0, v0, false, r0, d0⟩).quat
          = calculateTargetQuaternion sel ∧
        ((convergeFrame (1 / 60) sel)^[m]
          ⟨q0, v0, false, r0, d0⟩).rotationComplete = true := by
  have htunit := targetQuat_unit_int sel h0 h20
  set s0 : ControllerState := ⟨q0, v0, false, r0, d0⟩ with hs0
  have hstay : ∀ t : ControllerState, t.rotationComplete = true →
      t.quat = calculateTargetQuaternion sel →
      (convergeFrame (1 / 60) sel t).rotationComplete = true ∧
      (convergeFrame (1 / 60) sel t).quat = calculateTargetQuaternion sel := by
    intro t ht hqt
    rw [convergeFrame_complete _ _ _ ht]
    exact ⟨ht, hqt⟩
  have hterm : ∀ k : ℕ,
      ((convergeFrame (1 / 60) sel)^[k] s0).rotationComplete = true →
      ((convergeFrame (1 / 60) sel)^[k] s0).quat = calculateTargetQuaternion sel →
      ∀ m, k ≤ m →
        ((convergeFrame (1 / 60) sel)^[m] s0).quat = calculateTargetQuaternion sel ∧
        ((convergeFrame (1 / 60) sel)^[m] s0).rotationComplete = true := by
    intro k hk hkq m hkm
    obtain ⟨j, rfl⟩ : ∃ j, m = k + j := ⟨m - k, by omega⟩
    clear hkm
    induction j with
    | zero => exact ⟨hkq, hk⟩
    | succ j ihj =>
      rw [show k + (j + 1) = (k + j) + 1 by omega, Function.iterate_succ_apply']
      obtain ⟨hq1, hc1⟩ := ihj
      obtain ⟨ha2, hb2⟩ := hstay _ hc1 hq1
      exact ⟨hb2, ha2⟩
  have hbound : (13 / 15 : ℝ) ^ 42 * Real.pi < 0.01 := by
    have hpi := Real.pi_lt_315
    have hpow : (13 / 15 : ℝ) ^ 42 < 0.0031 := by norm_num
    nlinarith [Real.pi_pos]
  rcases converge_iter sel h0 h20 s0 hq rfl 42 with ⟨hc, hqv⟩ | ⟨hnc, hq42, hang42⟩
  · refine ⟨42, by norm_num, hc, hqv, ?_, hterm 42 hc hqv⟩
    rw [hqv, angleTo_self_unit _ htunit]
  · have hsnap : angleTo (((convergeFrame (1 / 60) sel)^[42] s0)).quat
        (calculateTargetQuaternion sel) < 0.01 := lt_of_le_of_lt hang42 hbound
    have h43 : (convergeFrame (1 / 60) sel)^[43] s0
        = { ((convergeFrame (1 / 60) sel)^[42] s0) with
            quat := calculateTargetQuaternion sel, angularVelocity := 0,
            rotationComplete := true, detectedFaceIndex := some sel,
            verificationRetryCount := 0 } := by
      rw [show (43 : ℕ) = 42 + 1 by norm_num, Function.iterate_succ_apply',
        convergeFrame_snap _ _ _ h0 h20 hnc hsnap]
    have hc43 : ((convergeFrame (1 / 60) sel)^[43] s0).rotationComplete = true := by
      rw [h43]
    have hq43 : ((convergeFrame (1 / 60) sel)^[43] s0).quat
        = calculateTargetQuaternion sel := by rw [h43]
    refine ⟨43, by norm_num, hc43, hq43, ?_, hterm 43 hc43 hq43⟩
    rw [hq43, angleTo_self_unit _ htunit]

/-- Witness for C6 at the identity initial orientation and face `0`. -/
theorem C6_convergence_bounded_witness :
    ∃ n ≤ 300,
      ((convergeFrame (1 / 60) 0)^[n]
        ⟨Quat.one, 0, false, 0, none⟩).rotationComplete = true ∧
      ((convergeFrame (1 / 60) 0)^[n] ⟨Quat.one, 0, false, 0, none⟩).quat
        = calculateTargetQuaternion 0 ∧
      angleTo (((convergeFrame (1 / 60) 0)^[n] ⟨Quat.one, 0, false, 0, none⟩).quat)
        (calculateTargetQuaternion 0) = 0 ∧
      ∀ m, n ≤ m →
        ((convergeFrame (1 / 60) 0)^[m] ⟨Quat.one, 0, false, 0, none⟩).quat
          = calculateTargetQuaternion 0 ∧
        ((convergeFrame (1 / 60) 0)^[m]
          ⟨Quat.one, 0, false, 0, none⟩).rotationComplete = true :=
  C6_convergence_bounded 0 Quat.one 0 0 none (by norm_num) (by norm_num)
    (by norm_num [Quat.dotQ, Quat.one])

end RiskDice
